import Mathlib

/-!
# The BAO fitting core of `src/baofit.cc`

A shallow embedding of the classes `Binning`, `LyaData`, `LyaBaoModel`, `Parameter` and
`LyaBaoLikelihood` of `src/src/baofit.cc`, of the loop of its `main` over the `.params` file, and
of the constructor of `BaryonPerturbations` of `src/cosmo/BaryonPerturbations.cc`, followed by
theorems about them.

Conventions of the embedding.

* A C++ `double` is an element of an ordered field `K` with a floor function (exact arithmetic:
  `ℚ` for computing, `ℝ` where `std::sqrt`, `std::exp` or `std::pow` have to mean something), and
  a C++ `int` is a Lean `Int`.
* Where the outcome of a function depends on the rounding of a `double` or on the 32 bits of an
  `int`, the function is given a second time, in the namespace `Machine`, with every operation
  on `double` rounded to the nearest binary64 number (`Double.round`) and every operation on
  `int` reduced to 32 bits (`int32`). Theorems about these definitions say "in machine
  arithmetic".
* The functions of `<cmath>` that are not field operations (`exp`, `sqrt`, `pow`, `atan`) are
  collected in a record `CMath K` that the embedded functions receive as an argument.
* An `assert` that fails ends the program: a function with assertions returns an `Option`, and
  `none` is the failed assertion.
* `std::vector` is a `List`; the unchecked `v[i]` is `vget` (read) and `vset` (write).
* Objects the program mutates through a pointer are passed and returned explicitly.
* A thrown `cosmo::RuntimeError` is a result of its own (`LineResult.runtimeError`,
  `Except.error`), distinct from a failed assertion.
-/

namespace BaoFit

/-! ## Definitions -/

/-- The functions of `<cmath>` used by the program that are not field operations. -/
structure CMath (K : Type) where
  exp : K → K
  sqrt : K → K
  pow : K → K → K
  atan : K → K

/-- Unchecked read `v[i]` of a `std::vector` at an `int` position; `dflt` stands for the
value of a read outside the vector. -/
def vget {α : Type} (v : List α) (i : Int) (dflt : α) : α :=
  v.getD i.toNat dflt

/-- Unchecked write `v[i] = x` of a `std::vector` at an `int` position. -/
def vset {α : Type} (v : List α) (i : Int) (x : α) : List α :=
  v.set i.toNat x

/-- The data members of `class Binning`. -/
structure Binning (K : Type) where
  _nBins : Int
  _lowEdge : K
  _binSize : K

/-- The two services of `cosmo::AbsHomogeneousUniverse` that `LyaData` calls. -/
structure AbsHomogeneousUniverse (K : Type) where
  getLineOfSightComovingDistance : K → K
  getTransverseComovingScale : K → K

/-- The data members of `class LyaData` (`_ndata` is declared but never read or written). -/
structure LyaData (K : Type) where
  _logLambdaBinning : Binning K
  _separationBinning : Binning K
  _redshiftBinning : Binning K
  _cosmology : AbsHomogeneousUniverse K
  _data : List K
  _cov : List K
  _r3d : List K
  _mu : List K
  _initialized : List Bool
  _hasCov : List Bool
  _index : List Int
  _nsep : Int
  _nz : Int
  _ds : K
  _arcminToRad : K

/-- A `cosmo::RsdCorrelationFunction`: the current distortion parameter, and the value of the
correlation function as a function of the distortion, the radius and the cosine of the angle
(the combination of the three tabulated multipoles, which is not part of `baofit.cc`). -/
structure RsdCorrelationFunction (K : Type) where
  xi : K → K → K → K
  _distortion : K

/-- The data members of `class LyaBaoModel` that `evaluate` uses. -/
structure LyaBaoModel (K : Type) where
  _zref : K
  _fid : RsdCorrelationFunction K
  _nw : RsdCorrelationFunction K

/-- The data members of `class Parameter`. -/
structure Parameter (K : Type) where
  _name : String
  _value : K
  _floating : Bool

/-- The data members of `class LyaBaoLikelihood`. -/
structure LyaBaoLikelihood (K : Type) where
  _data : LyaData K
  _model : LyaBaoModel K
  _params : List (Parameter K)

section Code

variable {K : Type} [LinearOrderedField K] [FloorRing K]

/-- The constructor `Binning::Binning(nBins, lowEdge, binSize)` with its two assertions. -/
def Binning.new (nBins : Int) (lowEdge binSize : K) : Option (Binning K) :=
  if nBins > 0 ∧ binSize > 0 then
    some { _nBins := nBins, _lowEdge := lowEdge, _binSize := binSize }
  else none

/-- The method `Binning::getBinIndex`. -/
def Binning.getBinIndex (b : Binning K) (value : K) : Option Int :=
  let bin : Int := ⌊(value - b._lowEdge) / b._binSize⌋
  if bin ≥ 0 ∧ bin < b._nBins then some bin else none

/-- The method `Binning::getBinCenter`. -/
def Binning.getBinCenter (b : Binning K) (index : Int) : Option K :=
  if index ≥ 0 ∧ index < b._nBins then
    some (b._lowEdge + ((index : K) + 0.5) * b._binSize)
  else none

/-- The method `Binning::getNBins`. -/
def Binning.getNBins (b : Binning K) : Int := b._nBins

/-- The method `Binning::getLowEdge`. -/
def Binning.getLowEdge (b : Binning K) : K := b._lowEdge

/-- The method `Binning::getBinSize`. -/
def Binning.getBinSize (b : Binning K) : K := b._binSize

/-- The function `oversampleBinning(other, factor)`. -/
def oversampleBinning (other : Binning K) (factor : Int) : Option (Binning K) :=
  if factor > 0 then
    Binning.new (other.getNBins * factor) other.getLowEdge (other.getBinSize / (factor : K))
  else none

/-- The constructor `LyaData::LyaData`; the four pointers it asserts to be non-null are passed
as values. -/
def LyaData.new (M : CMath K) (logLambdaBinning separationBinning redshiftBinning : Binning K)
    (cosmology : AbsHomogeneousUniverse K) : LyaData K :=
  let nsep := separationBinning.getNBins
  let nz := redshiftBinning.getNBins
  let nBinsTotal : Int := logLambdaBinning.getNBins * nsep * nz
  { _logLambdaBinning := logLambdaBinning
    _separationBinning := separationBinning
    _redshiftBinning := redshiftBinning
    _cosmology := cosmology
    _data := List.replicate nBinsTotal.toNat 0
    _cov := List.replicate nBinsTotal.toNat 0
    _r3d := List.replicate nBinsTotal.toNat 0
    _mu := List.replicate nBinsTotal.toNat 0
    _initialized := List.replicate nBinsTotal.toNat false
    _hasCov := []
    _index := []
    _nsep := nsep
    _nz := nz
    _ds := separationBinning.getBinSize
    _arcminToRad := 4 * M.atan 1 / (60 * 180) }

/-- The method `LyaData::transform`; the two reference arguments `r3d` and `mu` it writes are
returned as a pair. -/
def LyaData.transform (M : CMath K) (d : LyaData K) (ll sep z ds : K) : K × K :=
  let ratio := M.exp (0.5 * ll)
  let zp1 := z + 1
  let z1 := zp1 / ratio - 1
  let z2 := zp1 * ratio - 1
  let drLos := d._cosmology.getLineOfSightComovingDistance z2 -
    d._cosmology.getLineOfSightComovingDistance z1
  let swgt := sep + (ds * ds / 12) / sep
  let drPerp := d._cosmology.getTransverseComovingScale z * (swgt * d._arcminToRad)
  let rsq := drLos * drLos + drPerp * drPerp
  let r3d := M.sqrt rsq
  let mu := |drLos| / r3d
  (r3d, mu)

/-- The method `LyaData::addData`. -/
def LyaData.addData (M : CMath K) (d : LyaData K) (value logLambda separation redshift : K) :
    Option (LyaData K) := do
  let logLambdaBin ← d._logLambdaBinning.getBinIndex logLambda
  let separationBin ← d._separationBinning.getBinIndex separation
  let redshiftBin ← d._redshiftBinning.getBinIndex redshift
  let index : Int := (logLambdaBin * d._nsep + separationBin) * d._nz + redshiftBin
  let logLambdaCenter ← d._logLambdaBinning.getBinCenter logLambdaBin
  if ¬ (|logLambda - logLambdaCenter| < 1e-6) then none
  let separationCenter ← d._separationBinning.getBinCenter separationBin
  if ¬ (|separation - separationCenter| < 1e-6) then none
  let redshiftCenter ← d._redshiftBinning.getBinCenter redshiftBin
  if ¬ (|redshift - redshiftCenter| < 1e-6) then none
  if ¬ (! vget d._initialized index false) then none
  let out := d.transform M logLambda separation redshift d._ds
  some { d with
    _data := vset d._data index value
    _initialized := vset d._initialized index true
    _index := d._index ++ [index]
    _hasCov := d._hasCov ++ [false]
    _r3d := vset d._r3d index out.1
    _mu := vset d._mu index out.2 }

/-- The method `LyaData::getSize`. -/
def LyaData.getSize (d : LyaData K) : Int := d._data.length

/-- The method `LyaData::getNData`. -/
def LyaData.getNData (d : LyaData K) : Int := d._index.length

/-- The method `LyaData::getNCov`. -/
def LyaData.getNCov (d : LyaData K) : Int := d._hasCov.count true

/-- The method `LyaData::getIndex`. -/
def LyaData.getIndex (d : LyaData K) (k : Int) : Int := vget d._index k 0

/-- The method `LyaData::getData`. -/
def LyaData.getData (d : LyaData K) (index : Int) : K := vget d._data index 0

/-- The method `LyaData::getVariance`. -/
def LyaData.getVariance (d : LyaData K) (index : Int) : K := vget d._cov index 0

/-- The method `LyaData::getRadius`. -/
def LyaData.getRadius (d : LyaData K) (index : Int) : K := vget d._r3d index 0

/-- The method `LyaData::getCosAngle`. -/
def LyaData.getCosAngle (d : LyaData K) (index : Int) : K := vget d._mu index 0

/-- The method `LyaData::getRedshift`; the C++ `%` truncates towards zero. -/
def LyaData.getRedshift (d : LyaData K) (index : Int) : Option K :=
  d._redshiftBinning.getBinCenter (Int.tmod index d._nz)

/-- The method `LyaData::addCovariance`. -/
def LyaData.addCovariance (d : LyaData K) (i j : Int) (value : K) : Option (LyaData K) := do
  if ¬ (i ≥ 0 ∧ i < d.getNData) then none
  if ¬ (i = j ∧ value > 0) then none
  if ¬ (vget d._hasCov i false = false) then none
  some { d with
    _cov := vset d._cov (vget d._index i 0) value
    _hasCov := vset d._hasCov i true }

/-- The method `RsdCorrelationFunction::setDistortion`. -/
def RsdCorrelationFunction.setDistortion (f : RsdCorrelationFunction K) (beta : K) :
    RsdCorrelationFunction K :=
  { f with _distortion := beta }

/-- The call operator `RsdCorrelationFunction::operator()(r, mu)`. -/
def RsdCorrelationFunction.call (f : RsdCorrelationFunction K) (r mu : K) : K :=
  f.xi f._distortion r mu

/-- The method `LyaBaoModel::evaluate`; it returns its value and the model it leaves behind
(the two `setDistortion` calls write through the `_fid` and `_nw` pointers). -/
def LyaBaoModel.evaluate (M : CMath K) (m : LyaBaoModel K) (r mu z : K) (p : List K) :
    K × LyaBaoModel K :=
  let alpha := vget p 0 0
  let bias := vget p 1 0
  let beta := vget p 2 0
  let ampl := vget p 3 0
  let scale := vget p 4 0
  let zfactor := M.pow ((1 + z) / (1 + m._zref)) alpha
  let fidF := m._fid.setDistortion beta
  let nwF := m._nw.setDistortion beta
  let fid := fidF.call (r * scale) mu
  let nw := nwF.call (r * scale) mu
  let xi := ampl * (fid - nw) + nw
  (bias * bias * zfactor * xi, { m with _fid := fidF, _nw := nwF })

/-- The constructor `Parameter::Parameter(name, value, floating)`. -/
def Parameter.new (name : String) (value : K) (floating : Bool) : Parameter K :=
  { _name := name, _value := value, _floating := floating }

/-- The method `Parameter::fix`. -/
def Parameter.fix (q : Parameter K) (value : K) : Parameter K :=
  { q with _value := value, _floating := false }

/-- The method `Parameter::setValue`. -/
def Parameter.setValue (q : Parameter K) (value : K) : Parameter K :=
  { q with _value := value }

/-- The method `Parameter::isFloating`. -/
def Parameter.isFloating (q : Parameter K) : Bool := q._floating

/-- The method `Parameter::getValue`. -/
def Parameter.getValue (q : Parameter K) : K := q._value

/-- The method `Parameter::getName`. -/
def Parameter.getName (q : Parameter K) : String := q._name

/-- The constructor `LyaBaoLikelihood::LyaBaoLikelihood(data, model)`. -/
def LyaBaoLikelihood.new (data : LyaData K) (model : LyaBaoModel K) : LyaBaoLikelihood K :=
  { _data := data
    _model := model
    _params := [Parameter.new "Alpha" 4.0 true, Parameter.new "Bias" 0.2 true,
      Parameter.new "Beta" 0.8 true, Parameter.new "BAO Ampl" 1 true,
      Parameter.new "BAO Scale" 1 true] }

/-- One pass through the body of the `for` loop of `LyaBaoLikelihood::operator()`, for the
loop counter `k`: the state is the running sum `nll` and the model. -/
def LyaBaoLikelihood.body (M : CMath K) (data : LyaData K) (params : List K)
    (st : K × LyaBaoModel K) (k : Nat) : Option (K × LyaBaoModel K) := do
  let index := data.getIndex k
  let r := data.getRadius index
  let mu := data.getCosAngle index
  let z ← data.getRedshift index
  let obs := data.getData index
  let var := data.getVariance index
  let ev := st.2.evaluate M r mu z params
  let pred := ev.1
  let diff := obs - pred
  some (st.1 + diff * diff / var, ev.2)

/-- The call operator `LyaBaoLikelihood::operator()(params)`: the loop runs `k` from `0` up to
`getNData()`, and the value is returned with the likelihood object it leaves behind. -/
def LyaBaoLikelihood.call (M : CMath K) (L : LyaBaoLikelihood K) (params : List K) :
    Option (K × LyaBaoLikelihood K) := do
  let st ← (List.range L._data.getNData.toNat).foldlM
    (LyaBaoLikelihood.body M L._data params) (0, L._model)
  some (0.5 * st.1, { L with _model := st.2 })

/-- The method `LyaBaoLikelihood::getNPar`. -/
def LyaBaoLikelihood.getNPar (L : LyaBaoLikelihood K) : Int := L._params.length

/-- The datasets the program can build: a constructed `LyaData`, followed by any number of
`addData` and `addCovariance` calls that pass their assertions. -/
inductive LyaData.Reachable (M : CMath K) : LyaData K → Prop
  | new (logLambdaBinning separationBinning redshiftBinning : Binning K)
      (cosmology : AbsHomogeneousUniverse K) :
      LyaData.Reachable M
        (LyaData.new M logLambdaBinning separationBinning redshiftBinning cosmology)
  | addData (d e : LyaData K) (value logLambda separation redshift : K) :
      LyaData.Reachable M d → d.addData M value logLambda separation redshift = some e →
      LyaData.Reachable M e
  | addCovariance (d e : LyaData K) (i j : Int) (value : K) :
      LyaData.Reachable M d → d.addCovariance i j value = some e →
      LyaData.Reachable M e

/-- The dataset `e` is obtained from the dataset `d` by any number of `addData` and
`addCovariance` calls that pass their assertions. -/
inductive LyaData.Extends (M : CMath K) : LyaData K → LyaData K → Prop
  | refl (d : LyaData K) : LyaData.Extends M d d
  | addData (d e f : LyaData K) (value logLambda separation redshift : K) :
      LyaData.Extends M d e → e.addData M value logLambda separation redshift = some f →
      LyaData.Extends M d f
  | addCovariance (d e f : LyaData K) (i j : Int) (value : K) :
      LyaData.Extends M d e → e.addCovariance i j value = some f →
      LyaData.Extends M d f

/-- The consistency conditions that every dataset the program builds satisfies. -/
structure LyaData.Inv (d : LyaData K) : Prop where
  nsep_eq : d._nsep = d._separationBinning._nBins
  nz_eq : d._nz = d._redshiftBinning._nBins
  size_data : d._data.length = (d._logLambdaBinning._nBins * d._nsep * d._nz).toNat
  size_cov : d._cov.length = (d._logLambdaBinning._nBins * d._nsep * d._nz).toNat
  size_r3d : d._r3d.length = (d._logLambdaBinning._nBins * d._nsep * d._nz).toNat
  size_mu : d._mu.length = (d._logLambdaBinning._nBins * d._nsep * d._nz).toNat
  size_initialized :
    d._initialized.length = (d._logLambdaBinning._nBins * d._nsep * d._nz).toNat
  size_hasCov : d._hasCov.length = d._index.length
  index_nonneg : ∀ i ∈ d._index, 0 ≤ i
  index_lt : ∀ i ∈ d._index, i < d._logLambdaBinning._nBins * d._nsep * d._nz
  nz_pos : ∀ i ∈ d._index, 0 < d._nz
  index_nodup : d._index.Nodup
  initialized_iff : ∀ i : Int, 0 ≤ i → (vget d._initialized i false = true ↔ i ∈ d._index)
  cov_pos : ∀ k : Nat, k < d._index.length → d._hasCov.getD k false = true →
    0 < vget d._cov (d._index.getD k 0) 0

/-- The binning `(count = 2, lowEdge = 0, width = 1)` of the scenario of the specification. -/
def exampleBinning : Binning K := ⟨2, 0, 1⟩

/-- The empty dataset of the scenario: the binning `(2, 0, 1)` on each of the three axes. -/
def exampleEmpty (M : CMath K) (c : AbsHomogeneousUniverse K) : LyaData K :=
  LyaData.new M exampleBinning exampleBinning exampleBinning c

/-- The dataset of the scenario once the bin at `(0.5, 0.5, 0.5)` holds the value `10`. -/
def exampleFilled (M : CMath K) (c : AbsHomogeneousUniverse K) : LyaData K :=
  let d := exampleEmpty M c
  { d with
    _data := vset d._data 0 10
    _initialized := vset d._initialized 0 true
    _index := [0]
    _hasCov := [false]
    _r3d := vset d._r3d 0 (d.transform M 0.5 0.5 0.5 1).1
    _mu := vset d._mu 0 (d.transform M 0.5 0.5 0.5 1).2 }

/-- The dataset of the scenario once its one filled bin also has the variance `4`. -/
def exampleComplete (M : CMath K) (c : AbsHomogeneousUniverse K) : LyaData K :=
  let d := exampleFilled M c
  { d with
    _cov := vset d._cov 0 4
    _hasCov := [true] }

/-- A call received by the `ROOT::Minuit2::MnUserParameterState` that
`LyaBaoLikelihood::initialize` fills: `Add(name, value, error)` or `Fix(name)`. The state is
represented by the list of the calls it has received, oldest first. -/
inductive StateCall (K : Type) where
  | Add (name : String) (value error : K)
  | Fix (name : String)

/-- The method `LyaBaoLikelihood::initialize(initialState)`: the `BOOST_FOREACH` loop over
`_params`, returning the state with the calls it received appended. -/
def LyaBaoLikelihood.initialize (L : LyaBaoLikelihood K) (initialState : List (StateCall K)) :
    List (StateCall K) :=
  L._params.foldl (fun st param =>
    let value := param.getValue
    if param.isFloating then
      st ++ [StateCall.Add param.getName value (0.1 * value)]
    else
      (st ++ [StateCall.Add param.getName value 0]) ++ [StateCall.Fix param.getName])
    initialState

/-- How one pass through the body of a reading loop of `main` ends: with the dataset it leaves
for the next line, with a `cosmo::RuntimeError` thrown (which `main` catches to return `-2`),
or with the program aborted by a failed assertion or by an exception `main` does not catch. -/
inductive LineResult (K : Type) where
  | ok (data : LyaData K)
  | runtimeError (message : String)
  | abort

/-- The string `fpat` of `main`. -/
def fpat : String := "([-+]?[0-9]*\\.?[0-9]+(?:[eE][-+]?[0-9]+)?)"

/-- The string that `main` compiles into `paramPattern`: the format with `fpat` substituted for
each of its five `%s`. -/
def paramPattern : String :=
  "\\s*" ++ fpat ++ "\\s+" ++ fpat ++ "\\s*\\| Lya covariance 3D \\(" ++ fpat ++ "," ++ fpat ++
    "," ++ fpat ++ "\\)\\s*"

/-- The body of the loop of `main` over the lines of the `.params` file, from `lineNumber++`
on, for a line that `std::getline` has read; `lineNumber` is the value after the increment.
`regex_match line pattern` stands for `boost::regex_match` and returns the sub-matches
`what[0], what[1], ...` of a match, and `lexical_cast` stands for `boost::lexical_cast<double>`,
which returns no value when it throws `bad_lexical_cast`. -/
def paramsLine (M : CMath K) (regex_match : String → String → Option (List String))
    (lexical_cast : String → Option K) (data : LyaData K) (lineNumber : Nat) (line : String) :
    LineResult K :=
  match regex_match line paramPattern with
  | none =>
    LineResult.runtimeError
      ("Badly formatted params line " ++ toString lineNumber ++ ": '" ++ line ++ "'")
  | some what =>
    let nTokens := 5
    match (List.range nTokens).mapM (fun tok => lexical_cast (what.getD (tok + 1) "")) with
    | none => LineResult.abort
    | some token =>
      if (0 : K) ≠ vget token 1 0 then
        LineResult.runtimeError "Got unexpected non-zero token."
      else
        match data.addData M (vget token 0 0) (vget token 2 0) (vget token 3 0)
          (vget token 4 0) with
        | none => LineResult.abort
        | some next => LineResult.ok next

/-- The part of the state of the `std::ifstream` of a reading loop of `main` that the loop
depends on: the characters of the file that are not read yet, and the flags `eofbit` and
`failbit` (`badbit`, the flag of a failing device, is never set). -/
structure IfStream where
  rest : List Char
  eofbit : Bool
  failbit : Bool
  deriving DecidableEq

/-- The method `std::ios::good`. -/
def IfStream.good (s : IfStream) : Bool := !s.eofbit && !s.failbit

/-- The method `std::ios::eof`. -/
def IfStream.eof (s : IfStream) : Bool := s.eofbit

/-- The call `std::getline(in, line)` on a stream that is `good()`, returning the stream and the
line: the characters before the next line feed are stored in the line and removed from the
stream together with the line feed; when the stream ends before a line feed, the characters left
are stored, `eofbit` is set, and `failbit` is set too if no character was left. -/
def IfStream.getline (s : IfStream) : IfStream × String :=
  match s.rest.span (fun c => c != Char.ofNat 10) with
  | (l, _ :: r) => ({ s with rest := r }, String.mk l)
  | (l, []) => ({ rest := [], eofbit := true, failbit := s.failbit || l.isEmpty }, String.mk l)

/-- The loop `while(paramsIn.good() && !paramsIn.eof())` of `main` over the `.params` file, with
`paramsLine` for the part of its body from `lineNumber++` on. The result is the dataset with
which the loop ends, or the `RuntimeError` or the abort that ends it. The first argument bounds
the number of passes: every pass that does not end the loop removes a character from the
stream, so one more than the number of characters of the stream is never used up
(`paramsLoop_fuel`), and that is what `readParams` passes. -/
def paramsLoop (M : CMath K) (regex_match : String → String → Option (List String))
    (lexical_cast : String → Option K) :
    Nat → IfStream → LyaData K → Nat → LineResult K
  | 0, _, _, _ => LineResult.abort
  | fuel + 1, paramsIn, data, lineNumber =>
    if paramsIn.good && !paramsIn.eof then
      let r := paramsIn.getline
      if r.1.eof then LineResult.ok data
      else if !r.1.good then
        LineResult.runtimeError ("Unable to read line " ++ toString lineNumber)
      else
        match paramsLine M regex_match lexical_cast data (lineNumber + 1) r.2 with
        | LineResult.ok next => paramsLoop M regex_match lexical_cast fuel r.1 next (lineNumber + 1)
        | LineResult.runtimeError message => LineResult.runtimeError message
        | LineResult.abort => LineResult.abort
    else LineResult.ok data

/-- The loop of `main` over a `.params` file that could be opened and whose content is `text`,
starting with `lineNumber = 0`. -/
def readParams (M : CMath K) (regex_match : String → String → Option (List String))
    (lexical_cast : String → Option K) (data : LyaData K) (text : String) : LineResult K :=
  paramsLoop M regex_match lexical_cast (text.length + 1) ⟨text.toList, false, false⟩ data 0

/-- The characters that `\s` matches. -/
def isSpace (c : Char) : Bool :=
  c = Char.ofNat 32 || c = Char.ofNat 9 || c = Char.ofNat 10 || c = Char.ofNat 11 ||
    c = Char.ofNat 12 || c = Char.ofNat 13

/-- The characters that `[0-9]` matches. -/
def isDigit (c : Char) : Bool :=
  decide ('0' ≤ c) && decide (c ≤ '9')

/-- Splits off what `[-+]?` matches at the start of a text. -/
def splitSign (cs : List Char) : List Char × List Char :=
  match cs with
  | c :: r => if c = '-' ∨ c = '+' then ([c], r) else ([], cs)
  | [] => ([], [])

/-- The longest start of a text that `fpat` matches, with the rest of the text. In
`paramPattern` every `fpat` is followed by white space, `|`, `,` or `)`, none of which can
continue a number, so a match of the whole line takes the longest match at each `fpat`. -/
def fpatMatch (cs : List Char) : Option (List Char × List Char) :=
  let sg := splitSign cs
  let ip := sg.2.span isDigit
  let mant : Option (List Char × List Char) :=
    match ip.2 with
    | c :: r2 =>
      let fp := r2.span isDigit
      if c = '.' ∧ fp.1 ≠ [] then some (ip.1 ++ c :: fp.1, fp.2)
      else if ip.1 ≠ [] then some (ip.1, ip.2) else none
    | [] => if ip.1 ≠ [] then some (ip.1, ip.2) else none
  match mant with
  | none => none
  | some m =>
    match m.2 with
    | e :: r5 =>
      let es := splitSign r5
      let ed := es.2.span isDigit
      if (e = 'e' ∨ e = 'E') ∧ ed.1 ≠ [] then some (sg.1 ++ m.1 ++ e :: es.1 ++ ed.1, ed.2)
      else some (sg.1 ++ m.1, m.2)
    | [] => some (sg.1 ++ m.1, m.2)

/-- Removes the literal text `lit` from the start of a text. -/
def dropLiteral (lit cs : List Char) : Option (List Char) :=
  if lit.isPrefixOf cs then some (cs.drop lit.length) else none

/-- Modelled on the Perl syntax of `boost::regex`, which is not part of this repository:
`boost::regex_match` of a line against `paramPattern`, returning the whole line and the five
captured numbers. -/
def matchParamsLine (line : String) : Option (List String) := do
  let r0 := line.toList.dropWhile isSpace
  let t1 ← fpatMatch r0
  let w1 := t1.2.span isSpace
  if w1.1 = [] then none
  let t2 ← fpatMatch w1.2
  let r2 ← dropLiteral "| Lya covariance 3D (".toList (t2.2.dropWhile isSpace)
  let t3 ← fpatMatch r2
  let r3 ← dropLiteral [','] t3.2
  let t4 ← fpatMatch r3
  let r4 ← dropLiteral [','] t4.2
  let t5 ← fpatMatch r4
  let r5 ← dropLiteral [')'] t5.2
  if r5.dropWhile isSpace ≠ [] then none
  some [line, String.mk t1.1, String.mk t2.1, String.mk t3.1, String.mk t4.1, String.mk t5.1]

/-- The model of `boost::regex_match` used in the examples: `matchParamsLine` for the pattern
`paramPattern`. -/
def boostRegexMatch (line pattern : String) : Option (List String) :=
  if pattern = paramPattern then matchParamsLine line else none

/-- The number written by a list of decimal digits. -/
def digitsValue (ds : List Char) : Nat :=
  ds.foldl (fun acc c => 10 * acc + (c.toNat - 48)) 0

/-- Reads a whole text as a decimal numeral `[-+]? digits [. digits] [(e|E) [-+]? digits]`:
whether it is negative, the number its digits write without the point, and the power of ten
to multiply it by. -/
def parseDecimal (s : String) : Option (Bool × Nat × Int) :=
  let sg := splitSign s.toList
  let ip := sg.2.span isDigit
  let fr : List Char × List Char :=
    match ip.2 with
    | c :: r2 => if c = '.' then r2.span isDigit else ([], ip.2)
    | [] => ([], [])
  if ip.1 ++ fr.1 = [] then none
  else
    let ex : Option (Int × List Char) :=
      match fr.2 with
      | e :: r5 =>
        let es := splitSign r5
        let ed := es.2.span isDigit
        if (e = 'e' ∨ e = 'E') ∧ ed.1 ≠ [] then
          some (if es.1 = ['-'] then -(digitsValue ed.1 : Int) else (digitsValue ed.1 : Int),
            ed.2)
        else some (0, fr.2)
      | [] => some (0, [])
    match ex with
    | none => none
    | some x =>
      if x.2 ≠ [] then none
      else some (decide (sg.1 = ['-']), digitsValue (ip.1 ++ fr.1), x.1 - (fr.1.length : Int))

/-- Modelled on `boost::lexical_cast<double>`, which is not part of this repository: the exact
value of a decimal numeral, and no value for any other text. -/
def lexicalCastDouble (s : String) : Option K :=
  (parseDecimal s).map fun t =>
    let m : K := if t.1 then -(t.2.1 : K) else (t.2.1 : K)
    if 0 ≤ t.2.2 then m * 10 ^ t.2.2.toNat else m / 10 ^ (-t.2.2).toNat

/-- The local variable `z1` of `LyaData::transform`. -/
def LyaData.transform_z1 (M : CMath K) (ll z : K) : K :=
  (z + 1) / M.exp (0.5 * ll) - 1

/-- The local variable `z2` of `LyaData::transform`. -/
def LyaData.transform_z2 (M : CMath K) (ll z : K) : K :=
  (z + 1) * M.exp (0.5 * ll) - 1

/-- The local variable `drLos` of `LyaData::transform`. -/
def LyaData.transform_drLos (M : CMath K) (d : LyaData K) (ll z : K) : K :=
  d._cosmology.getLineOfSightComovingDistance (LyaData.transform_z2 M ll z) -
    d._cosmology.getLineOfSightComovingDistance (LyaData.transform_z1 M ll z)

/-- The local variable `swgt` of `LyaData::transform`. -/
def LyaData.transform_swgt (sep ds : K) : K :=
  sep + (ds * ds / 12) / sep

/-- The data members of `class BaryonPerturbations` that its constructor sets. -/
structure BaryonPerturbations (K : Type) where
  _omegaMatter : K
  _omegaBaryon : K
  _hubbleConstant : K
  _cmbTemperature : K
  _omhh : K
  _obhh : K
  _theta_cmb : K
  _z_equality : K
  _k_equality : K
  _z_drag : K
  _R_drag : K
  _R_equality : K
  _sound_horizon : K
  _k_silk : K
  _alpha_c : K
  _beta_c : K
  _alpha_b : K
  _beta_node : K
  _beta_b : K
  _k_peak : K
  _sound_horizon_fit : K
  _alpha_gamma : K

/-- The constructor `BaryonPerturbations::BaryonPerturbations` of
`cosmo/BaryonPerturbations.cc`: a thrown `RuntimeError` is an `Except.error` with its message;
`log` stands for `std::log`. -/
def BaryonPerturbations.new (M : CMath K) (log : K → K)
    (omegaMatter omegaBaryon hubbleConstant cmbTemperature : K) :
    Except String (BaryonPerturbations K) :=
  if omegaMatter < 0 then
    Except.error "BaryonPerturbation: invalid omegaMatter < 0."
  else if omegaBaryon < 0 ∨ omegaBaryon > omegaMatter then
    Except.error "BaryonPerturbation: invalid omegaBaryon < 0 or > omegaMatter."
  else if hubbleConstant ≤ 0 then
    Except.error "BaryonPerturbation: invalid hubbleConstant < 0."
  else if cmbTemperature < 2.7 ∨ cmbTemperature > 2.8 then
    Except.error "BaryonPerturbation: unexpected cmbTemperature < 2.7 or > 2.8."
  else
    let f_baryon := omegaBaryon / omegaMatter
    let f2 := f_baryon * f_baryon
    let f3 := f2 * f_baryon
    let hSq := hubbleConstant * hubbleConstant
    let omhh := omegaMatter * hSq
    let obhh := omegaBaryon * hSq
    let theta_cmb := cmbTemperature / 2.7
    let tcmb2 := theta_cmb * theta_cmb
    let tcmb4 := tcmb2 * tcmb2
    let z_equality := 2.50e4 * omhh / tcmb4
    let k_equality := 0.0746 * omhh / tcmb2
    let z_drag_b1 := 0.313 * M.pow omhh (-0.419) * (1 + 0.607 * M.pow omhh 0.674)
    let z_drag_b2 := 0.238 * M.pow omhh 0.223
    let z_drag := 1291 * M.pow omhh 0.251 / (1 + 0.659 * M.pow omhh 0.828) *
      (1 + z_drag_b1 * M.pow obhh z_drag_b2)
    let R_drag := 31.5 * obhh / tcmb4 * (1000 / (1 + z_drag))
    let R_equality := 31.5 * obhh / tcmb4 * (1000 / z_equality)
    let sound_horizon := 2 / 3 / k_equality * M.sqrt (6 / R_equality) *
      log ((M.sqrt (1 + R_drag) + M.sqrt (R_drag + R_equality)) / (1 + M.sqrt R_equality))
    let k_silk := 1.6 * M.pow obhh 0.52 * M.pow omhh 0.73 * (1 + M.pow (10.4 * omhh) (-0.95))
    let alpha_c_a1 := M.pow (46.9 * omhh) 0.670 * (1 + M.pow (32.1 * omhh) (-0.532))
    let alpha_c_a2 := M.pow (12.0 * omhh) 0.424 * (1 + M.pow (45.0 * omhh) (-0.582))
    let alpha_c := M.pow alpha_c_a1 (-f_baryon) * M.pow alpha_c_a2 (-f3)
    let beta_c_b1 := 0.944 / (1 + M.pow (458 * omhh) (-0.708))
    let beta_c_b2 := M.pow (0.395 * omhh) (-0.0266)
    let beta_c := 1.0 / (1 + beta_c_b1 * (M.pow (1 - f_baryon) beta_c_b2 - 1))
    let y := z_equality / (1 + z_drag)
    let ytmp := M.sqrt (1 + y)
    let alpha_b_G := y * (-6 * ytmp + (2 + 3 * y) * log ((ytmp + 1) / (ytmp - 1)))
    let alpha_b := 2.07 * k_equality * sound_horizon * M.pow (1 + R_drag) (-0.75) * alpha_b_G
    let beta_node := 8.41 * M.pow omhh 0.435
    let beta_b := 0.5 + f_baryon + (3 - 2 * f_baryon) * M.sqrt (M.pow (17.2 * omhh) 2.0 + 1)
    let k_peak := 2.5 * 3.14159 * (1 + 0.217 * omhh) / sound_horizon
    let sound_horizon_fit := 44.5 * log (9.83 / omhh) / M.sqrt (1 + 10.0 * M.pow obhh 0.75)
    let alpha_gamma := 1 - 0.328 * log (431.0 * omhh) * f_baryon +
      0.38 * log (22.3 * omhh) * f2
    Except.ok
      { _omegaMatter := omegaMatter
        _omegaBaryon := omegaBaryon
        _hubbleConstant := hubbleConstant
        _cmbTemperature := cmbTemperature
        _omhh := omhh
        _obhh := obhh
        _theta_cmb := theta_cmb
        _z_equality := z_equality
        _k_equality := k_equality
        _z_drag := z_drag
        _R_drag := R_drag
        _R_equality := R_equality
        _sound_horizon := sound_horizon
        _k_silk := k_silk
        _alpha_c := alpha_c
        _beta_c := beta_c
        _alpha_b := alpha_b
        _beta_node := beta_node
        _beta_b := beta_b
        _k_peak := k_peak
        _sound_horizon_fit := sound_horizon_fit
        _alpha_gamma := alpha_gamma }

/-! ### Machine arithmetic

The definitions above compute with exact numbers and unbounded integers. The definitions of
this part repeat `Binning::getBinIndex`, `Binning::getBinCenter`, `oversampleBinning`, the
constructor of `LyaData` and the index computation of `LyaData::addData` with the arithmetic of
the machine: the result of an operation on `int` is reduced to 32 bits, and the result of an
operation on `double` is rounded to the nearest IEEE 754 binary64 number. -/

/-- The value an operation on `int` leaves when its exact result is `x`: `x` reduced to 32-bit
two's complement (the C++ standard leaves the overflow of an `int` undefined; this is what the
instructions of the machine compute). -/
def int32 (x : Int) : Int := (x + 2147483648) % 4294967296 - 2147483648

/-- The integer nearest to `s`, and the even one of the two nearest when `s` lies halfway
between them. -/
def roundHalfEven (s : ℚ) : Int :=
  if s - ⌊s⌋ < 1 / 2 then ⌊s⌋
  else if 1 / 2 < s - ⌊s⌋ then ⌊s⌋ + 1
  else if ⌊s⌋ % 2 = 0 then ⌊s⌋ else ⌊s⌋ + 1

/-- The exponent `e` for which the binary64 numbers next to `x` are the multiples of `2^e`: a
normal number has 53 significant bits, so `e` is 52 below the exponent `⌊log₂ |x|⌋` of `x`, and
the subnormal numbers are the multiples of `2^-1074`. -/
def ulpExponent (x : ℚ) : Int := max (Int.log 2 |x| - 52) (-1074)

/-- A value of type `double`: a finite number, or one of the values that are not finite (an
infinity, or a NaN). The sign of a zero is not recorded. -/
inductive Double where
  | finite (x : ℚ)
  | nonfinite

/-- The least magnitude that no finite `double` reaches, `2^1024`. -/
@[irreducible]
def Double.overflow : ℚ := 2 ^ 1024

/-- The `double` that an operation returns when its exact result is `x`: `x` rounded to the
nearest multiple of `2^ulpExponent x`, a tie going to the even multiple, and an infinity when
the rounded number is `2^1024` or more in magnitude. -/
@[irreducible]
def Double.round (x : ℚ) : Double :=
  let r : ℚ := (roundHalfEven (x / 2 ^ ulpExponent x) : ℚ) * 2 ^ ulpExponent x
  if |r| < Double.overflow then Double.finite r else Double.nonfinite

/-- The conversion to `int` of a `double` whose value is the integer `f`: `f` when it is the
value of an `int`, and `-2^31` otherwise (the C++ standard leaves that case undefined; this is
what the conversion instruction of x86-64 returns). -/
def doubleToInt (f : Int) : Int :=
  if -2147483648 ≤ f ∧ f < 2147483648 then f else -2147483648

/-- The method `Binning::getBinIndex` in machine arithmetic, for a `Binning` whose members are
finite and a finite `value`. The subtraction and the division are rounded. A difference or a
quotient that is not finite stays so through `std::floor`, its conversion to `int` is `-2^31`,
and the assertion fails. -/
def Machine.Binning.getBinIndex (b : Binning ℚ) (value : ℚ) : Option Int :=
  match Double.round (value - b._lowEdge) with
  | Double.nonfinite => none
  | Double.finite d =>
    match Double.round (d / b._binSize) with
    | Double.nonfinite => none
    | Double.finite q =>
      let bin : Int := doubleToInt ⌊q⌋
      if bin ≥ 0 ∧ bin < b._nBins then some bin else none

/-- The method `Binning::getBinCenter` in machine arithmetic, for a `Binning` whose members are
finite: the sum `index+0.5`, the product and the sum with `_lowEdge` are each rounded, and a
result that is not finite stays so. -/
def Machine.Binning.getBinCenter (b : Binning ℚ) (index : Int) : Option Double :=
  if index ≥ 0 ∧ index < b._nBins then
    some
      (match Double.round ((index : ℚ) + 0.5) with
      | Double.nonfinite => Double.nonfinite
      | Double.finite t =>
        match Double.round (t * b._binSize) with
        | Double.nonfinite => Double.nonfinite
        | Double.finite p => Double.round (b._lowEdge + p))
  else none

/-- The function `oversampleBinning(other, factor)` in machine arithmetic, for a `Binning` whose
members are finite: the product of the two `int` is reduced to 32 bits and the quotient is
rounded. The quotient of a finite `double` by an `int` that is `1` or more is finite, so its
first case does not occur. -/
def Machine.oversampleBinning (other : Binning ℚ) (factor : Int) : Option (Binning ℚ) :=
  if factor > 0 then
    match Double.round (other.getBinSize / (factor : ℚ)) with
    | Double.nonfinite => none
    | Double.finite q => Binning.new (int32 (other.getNBins * factor)) other.getLowEdge q
  else none

/-- The constructor `LyaData::LyaData` with the arithmetic of `int`: each of the two
multiplications of `nBinsTotal` is reduced to 32 bits. `resize` converts a negative `nBinsTotal`
to an unsigned size that no vector can have and throws an exception that `main` does not
catch. -/
def Machine.LyaData.new (M : CMath K)
    (logLambdaBinning separationBinning redshiftBinning : Binning K)
    (cosmology : AbsHomogeneousUniverse K) : Option (LyaData K) :=
  let nsep := separationBinning.getNBins
  let nz := redshiftBinning.getNBins
  let nBinsTotal : Int := int32 (int32 (logLambdaBinning.getNBins * nsep) * nz)
  if nBinsTotal < 0 then none
  else
    some
      { _logLambdaBinning := logLambdaBinning
        _separationBinning := separationBinning
        _redshiftBinning := redshiftBinning
        _cosmology := cosmology
        _data := List.replicate nBinsTotal.toNat 0
        _cov := List.replicate nBinsTotal.toNat 0
        _r3d := List.replicate nBinsTotal.toNat 0
        _mu := List.replicate nBinsTotal.toNat 0
        _initialized := List.replicate nBinsTotal.toNat false
        _hasCov := []
        _index := []
        _nsep := nsep
        _nz := nz
        _ds := separationBinning.getBinSize
        _arcminToRad := 4 * M.atan 1 / (60 * 180) }

/-- The local variable `index` of `LyaData::addData` with the arithmetic of `int`: each of the
two multiplications and of the two additions is reduced to 32 bits. -/
def Machine.LyaData.addData_index (d : LyaData K)
    (logLambdaBin separationBin redshiftBin : Int) : Int :=
  int32 (int32 (int32 (int32 (logLambdaBin * d._nsep) + separationBin) * d._nz) + redshiftBin)

end Code

/-! ## Theorems -/

section Proofs

variable {K : Type} [LinearOrderedField K] [FloorRing K]

/-! ### Binning -/

omit [FloorRing K] in
theorem Binning.new_eq_some {nBins : Int} {lowEdge binSize : K} {b : Binning K}
    (hb : Binning.new nBins lowEdge binSize = some b) :
    0 < nBins ∧ 0 < binSize ∧ b = ⟨nBins, lowEdge, binSize⟩ := by
  unfold Binning.new at hb
  split_ifs at hb with h
  exact ⟨h.1, h.2, (Option.some.inj hb).symm⟩

theorem vget_vset_self {α : Type} (v : List α) (i : Int) (x dflt : α) (h0 : 0 ≤ i)
    (h : i < v.length) : vget (vset v i x) i dflt = x := by
  have hn : i.toNat < v.length := (Int.toNat_lt h0).2 h
  simp [vget, vset, List.getD_eq_getElem?_getD, List.getElem?_set, hn]

theorem vget_vset_ne {α : Type} (v : List α) (i j : Int) (x dflt : α)
    (h : i.toNat ≠ j.toNat) : vget (vset v i x) j dflt = vget v j dflt := by
  simp [vget, vset, List.getD_eq_getElem?_getD, List.getElem?_set, h]

theorem length_vset {α : Type} (v : List α) (i : Int) (x : α) :
    (vset v i x).length = v.length := by
  simp [vset]

theorem vget_natCast {α : Type} (v : List α) (k : Nat) (dflt : α) :
    vget v (k : Int) dflt = v.getD k dflt := by
  simp [vget]

/-! ### The dataset -/

omit [FloorRing K] in
theorem Binning.getBinCenter_eq_some (b : Binning K) (index : Int) (c : K) :
    b.getBinCenter index = some c ↔
      0 ≤ index ∧ index < b._nBins ∧ c = b._lowEdge + ((index : K) + 0.5) * b._binSize := by
  unfold Binning.getBinCenter
  split_ifs with h
  · simp only [Option.some.injEq]
    exact ⟨fun hc => ⟨h.1, h.2, hc.symm⟩, fun hc => hc.2.2.symm⟩
  · simp only [false_iff, reduceCtorEq]
    intro hc
    exact h ⟨hc.1, hc.2.1⟩

theorem Binning.getBinIndex_eq_some (b : Binning K) (value : K) (bin : Int) :
    b.getBinIndex value = some bin ↔
      ⌊(value - b._lowEdge) / b._binSize⌋ = bin ∧ 0 ≤ bin ∧ bin < b._nBins := by
  simp only [Binning.getBinIndex, ge_iff_le]
  split_ifs with h
  · simp only [Option.some.injEq]
    constructor
    · intro hb; subst hb; exact ⟨rfl, h.1, h.2⟩
    · exact fun hb => hb.1
  · simp only [false_iff, reduceCtorEq]
    rintro ⟨rfl, h0, h1⟩
    exact h ⟨h0, h1⟩

/-- The record that a successful `addData` returns, for the bins `(a, b, c)` it resolved. -/
theorem LyaData.addData_eq_some_iff (M : CMath K) (d e : LyaData K)
    (value logLambda separation redshift : K) :
    d.addData M value logLambda separation redshift = some e ↔
      ∃ a b c : Int, ∃ ca cb cc : K,
        d._logLambdaBinning.getBinIndex logLambda = some a ∧
        d._separationBinning.getBinIndex separation = some b ∧
        d._redshiftBinning.getBinIndex redshift = some c ∧
        d._logLambdaBinning.getBinCenter a = some ca ∧ |logLambda - ca| < 1e-6 ∧
        d._separationBinning.getBinCenter b = some cb ∧ |separation - cb| < 1e-6 ∧
        d._redshiftBinning.getBinCenter c = some cc ∧ |redshift - cc| < 1e-6 ∧
        vget d._initialized ((a * d._nsep + b) * d._nz + c) false = false ∧
        e = { d with
          _data := vset d._data ((a * d._nsep + b) * d._nz + c) value
          _initialized := vset d._initialized ((a * d._nsep + b) * d._nz + c) true
          _index := d._index ++ [(a * d._nsep + b) * d._nz + c]
          _hasCov := d._hasCov ++ [false]
          _r3d := vset d._r3d ((a * d._nsep + b) * d._nz + c)
            (d.transform M logLambda separation redshift d._ds).1
          _mu := vset d._mu ((a * d._nsep + b) * d._nz + c)
            (d.transform M logLambda separation redshift d._ds).2 } := by
  unfold LyaData.addData
  cases ha : d._logLambdaBinning.getBinIndex logLambda with
  | none => simp
  | some a =>
    cases hb : d._separationBinning.getBinIndex separation with
    | none => simp
    | some b =>
      cases hc : d._redshiftBinning.getBinIndex redshift with
      | none => simp
      | some c =>
        cases hca : d._logLambdaBinning.getBinCenter a with
        | none => simp [hca]
        | some ca =>
          cases hcb : d._separationBinning.getBinCenter b with
          | none => simp [hca, hcb]
          | some cb =>
            cases hcc : d._redshiftBinning.getBinCenter c with
            | none => simp [hca, hcb, hcc]
            | some cc =>
              simp only [bind, Option.bind, hca, hcb, hcc, pure]
              constructor
              · intro h
                split_ifs at h with h1 h2 h3 h4
                refine ⟨a, b, c, ca, cb, cc, rfl, rfl, rfl, hca, h1, hcb, h2,
                  hcc, h3, ?_, (Option.some.inj h).symm⟩
                simpa using h4
              · rintro ⟨a1, b1, c1, ca1, cb1, cc1, ha1, hb1, hc1, hca1, h1, hcb1, h2, hcc1, h3, h4,
                  he⟩
                cases ha1
                cases hb1
                cases hc1
                rw [hca] at hca1
                rw [hcb] at hcb1
                rw [hcc] at hcc1
                cases hca1
                cases hcb1
                cases hcc1
                rw [if_neg (not_not.2 h1), if_neg (not_not.2 h2), if_neg (not_not.2 h3),
                  if_neg (by simp [h4]), he]

omit [FloorRing K] in
/-- The record that a successful `addCovariance` returns. -/
theorem LyaData.addCovariance_eq_some_iff (d e : LyaData K) (i j : Int) (value : K) :
    d.addCovariance i j value = some e ↔
      0 ≤ i ∧ i < d.getNData ∧ i = j ∧ 0 < value ∧ vget d._hasCov i false = false ∧
        e = { d with
          _cov := vset d._cov (vget d._index i 0) value
          _hasCov := vset d._hasCov i true } := by
  unfold LyaData.addCovariance
  simp only [bind, Option.bind, pure]
  constructor
  · intro h
    split_ifs at h with h1 h2 h3
    exact ⟨h1.1, h1.2, h2.1, h2.2, h3, (Option.some.inj h).symm⟩
  · rintro ⟨h0, h1, h2, h3, h4, he⟩
    rw [if_neg (not_not.2 ⟨h0, h1⟩), if_neg (not_not.2 ⟨h2, h3⟩), if_neg (not_not.2 h4), he]

theorem flat_index_bounds (nll nsep nz a b c : Int) (ha0 : 0 ≤ a) (ha : a < nll) (hb0 : 0 ≤ b)
    (hb : b < nsep) (hc0 : 0 ≤ c) (hc : c < nz) :
    0 ≤ (a * nsep + b) * nz + c ∧ (a * nsep + b) * nz + c < nll * nsep * nz := by
  have hnz : 0 < nz := lt_of_le_of_lt hc0 hc
  have hnsep : 0 < nsep := lt_of_le_of_lt hb0 hb
  have h1 : 0 ≤ a * nsep + b := add_nonneg (mul_nonneg ha0 hnsep.le) hb0
  have h2 : a * nsep + b + 1 ≤ nll * nsep := by
    have h3 : (a + 1) * nsep ≤ nll * nsep := mul_le_mul_of_nonneg_right ha hnsep.le
    linarith
  constructor
  · exact add_nonneg (mul_nonneg h1 hnz.le) hc0
  · have h4 : (a * nsep + b + 1) * nz ≤ nll * nsep * nz := mul_le_mul_of_nonneg_right h2 hnz.le
    linarith

omit [FloorRing K] in
theorem LyaData.inv_new (M : CMath K) (logLambdaBinning separationBinning redshiftBinning :
    Binning K) (cosmology : AbsHomogeneousUniverse K) :
    (LyaData.new M logLambdaBinning separationBinning redshiftBinning cosmology).Inv := by
  constructor <;> simp [LyaData.new, Binning.getNBins, vget]

/-- What a successful `addData` tells about the flattened index it filled. -/
theorem LyaData.addData_index (M : CMath K) (d e : LyaData K) (hd : d.Inv)
    (value logLambda separation redshift : K)
    (h : d.addData M value logLambda separation redshift = some e) :
    ∃ a b c : Int,
      d._logLambdaBinning.getBinIndex logLambda = some a ∧
      d._separationBinning.getBinIndex separation = some b ∧
      d._redshiftBinning.getBinIndex redshift = some c ∧
      0 ≤ c ∧ c < d._nz ∧
      0 ≤ (a * d._nsep + b) * d._nz + c ∧
      (a * d._nsep + b) * d._nz + c < d._logLambdaBinning._nBins * d._nsep * d._nz ∧
      vget d._initialized ((a * d._nsep + b) * d._nz + c) false = false ∧
      e = { d with
        _data := vset d._data ((a * d._nsep + b) * d._nz + c) value
        _initialized := vset d._initialized ((a * d._nsep + b) * d._nz + c) true
        _index := d._index ++ [(a * d._nsep + b) * d._nz + c]
        _hasCov := d._hasCov ++ [false]
        _r3d := vset d._r3d ((a * d._nsep + b) * d._nz + c)
          (d.transform M logLambda separation redshift d._ds).1
        _mu := vset d._mu ((a * d._nsep + b) * d._nz + c)
          (d.transform M logLambda separation redshift d._ds).2 } := by
  obtain ⟨a, b, c, ca, cb, cc, ha, hb, hc, -, -, -, -, -, -, hini, he⟩ :=
    (LyaData.addData_eq_some_iff M d e value logLambda separation redshift).1 h
  obtain ⟨-, ha0, ha1⟩ := (Binning.getBinIndex_eq_some _ _ _).1 ha
  obtain ⟨-, hb0, hb1⟩ := (Binning.getBinIndex_eq_some _ _ _).1 hb
  obtain ⟨-, hc0, hc1⟩ := (Binning.getBinIndex_eq_some _ _ _).1 hc
  rw [← hd.nsep_eq] at hb1
  rw [← hd.nz_eq] at hc1
  obtain ⟨hi0, hi1⟩ := flat_index_bounds _ _ _ a b c ha0 ha1 hb0 hb1 hc0 hc1
  exact ⟨a, b, c, ha, hb, hc, hc0, hc1, hi0, hi1, hini, he⟩

theorem LyaData.inv_addData (M : CMath K) (d e : LyaData K) (hd : d.Inv)
    (value logLambda separation redshift : K)
    (h : d.addData M value logLambda separation redshift = some e) : e.Inv := by
  obtain ⟨a, b, c, -, -, -, hc0, hc1, hi0, hi1, hini, he⟩ :=
    LyaData.addData_index M d e hd value logLambda separation redshift h
  have hlen : (a * d._nsep + b) * d._nz + c < (d._initialized.length : Int) := by
    rw [hd.size_initialized, Int.toNat_of_nonneg (le_trans hi0 hi1.le)]; exact hi1
  have hnot : (a * d._nsep + b) * d._nz + c ∉ d._index := by
    intro hmem
    have := (hd.initialized_iff _ hi0).2 hmem
    rw [hini] at this
    exact Bool.false_ne_true this
  subst he
  constructor
  · exact hd.nsep_eq
  · exact hd.nz_eq
  · simpa [length_vset] using hd.size_data
  · exact hd.size_cov
  · simpa [length_vset] using hd.size_r3d
  · simpa [length_vset] using hd.size_mu
  · simpa [length_vset] using hd.size_initialized
  · simp [hd.size_hasCov]
  · intro i hi
    rcases List.mem_append.1 hi with hi | hi
    · exact hd.index_nonneg i hi
    · rw [List.mem_singleton.1 hi]; exact hi0
  · intro i hi
    rcases List.mem_append.1 hi with hi | hi
    · exact hd.index_lt i hi
    · rw [List.mem_singleton.1 hi]; exact hi1
  · intro i _
    exact lt_of_le_of_lt hc0 hc1
  · show (d._index ++ [(a * d._nsep + b) * d._nz + c]).Nodup
    rw [List.nodup_append]
    refine ⟨hd.index_nodup, List.nodup_singleton _, ?_⟩
    intro x hx hx2
    rw [List.mem_singleton.1 hx2] at hx
    exact hnot hx
  · intro i hi
    show vget (vset d._initialized ((a * d._nsep + b) * d._nz + c) true) i false = true ↔
      i ∈ d._index ++ [(a * d._nsep + b) * d._nz + c]
    by_cases hEq : i = (a * d._nsep + b) * d._nz + c
    · subst hEq
      rw [vget_vset_self _ _ _ _ hi0 hlen]
      simp
    · have hne : ((a * d._nsep + b) * d._nz + c).toNat ≠ i.toNat := by
        intro hcon
        apply hEq
        rw [← Int.toNat_of_nonneg hi, ← Int.toNat_of_nonneg hi0, hcon]
      rw [vget_vset_ne _ _ _ _ _ hne, hd.initialized_iff i hi]
      simp [hEq]
  · intro k hk hcov
    show 0 < vget d._cov ((d._index ++ [(a * d._nsep + b) * d._nz + c]).getD k 0) 0
    have hk2 : k < d._index.length + 1 := by simpa using hk
    have hcov2 : (d._hasCov ++ [false]).getD k false = true := hcov
    by_cases hlt : k < d._index.length
    · rw [List.getD_append _ _ _ _ (by rw [hd.size_hasCov]; exact hlt)] at hcov2
      rw [List.getD_append _ _ _ _ hlt]
      exact hd.cov_pos k hlt hcov2
    · have hkeq : k = d._index.length := by omega
      rw [List.getD_append_right _ _ _ _ (by rw [hd.size_hasCov]; omega)] at hcov2
      rw [hkeq, hd.size_hasCov] at hcov2
      simp at hcov2

theorem getD_mem {α : Type} (l : List α) (k : Nat) (dflt : α) (hk : k < l.length) :
    l.getD k dflt ∈ l := by
  rw [List.getD_eq_getElem _ _ hk]
  exact List.getElem_mem hk

omit [FloorRing K] in
theorem LyaData.inv_addCovariance (d e : LyaData K) (hd : d.Inv) (i j : Int) (value : K)
    (h : d.addCovariance i j value = some e) : e.Inv := by
  obtain ⟨hi0, hi1, -, hv, -, he⟩ := (LyaData.addCovariance_eq_some_iff d e i j value).1 h
  have hin : i.toNat < d._index.length := (Int.toNat_lt hi0).2 hi1
  have hmem : vget d._index i 0 ∈ d._index := getD_mem _ _ _ hin
  have hii0 : 0 ≤ vget d._index i 0 := hd.index_nonneg _ hmem
  have hii1 : vget d._index i 0 < (d._cov.length : Int) := by
    rw [hd.size_cov, Int.toNat_of_nonneg (le_trans hii0 (hd.index_lt _ hmem).le)]
    exact hd.index_lt _ hmem
  subst he
  constructor
  · exact hd.nsep_eq
  · exact hd.nz_eq
  · exact hd.size_data
  · simpa [length_vset] using hd.size_cov
  · exact hd.size_r3d
  · exact hd.size_mu
  · exact hd.size_initialized
  · simpa [length_vset] using hd.size_hasCov
  · exact hd.index_nonneg
  · exact hd.index_lt
  · exact hd.nz_pos
  · exact hd.index_nodup
  · exact hd.initialized_iff
  · intro k hk hcov
    show 0 < vget (vset d._cov (vget d._index i 0) value) (d._index.getD k 0) 0
    have hcov2 : (vset d._hasCov i true).getD k false = true := hcov
    have hk2 : k < d._index.length := hk
    by_cases hEq : d._index.getD k 0 = vget d._index i 0
    · rw [hEq, vget_vset_self _ _ _ _ hii0 hii1]
      exact hv
    · have hkm : d._index.getD k 0 ∈ d._index := getD_mem _ _ _ hk2
      have hne : (vget d._index i 0).toNat ≠ (d._index.getD k 0).toNat := by
        intro hcon
        apply hEq
        rw [← Int.toNat_of_nonneg (hd.index_nonneg _ hkm), ← Int.toNat_of_nonneg hii0, hcon]
      rw [vget_vset_ne _ _ _ _ _ hne]
      have hki : i.toNat ≠ k := by
        intro hcon
        apply hEq
        rw [← hcon]
        rfl
      have hold : d._hasCov.getD k false = true := by
        simpa [vset, List.getD_eq_getElem?_getD, List.getElem?_set, hki] using hcov2
      exact hd.cov_pos k hk2 hold

/-- Every dataset the program can build satisfies the consistency conditions. -/
theorem LyaData.Reachable.inv (M : CMath K) (d : LyaData K) (hd : LyaData.Reachable M d) :
    d.Inv := by
  induction hd with
  | new l s z c => exact LyaData.inv_new M l s z c
  | addData d e value logLambda separation redshift _ h ih =>
    exact LyaData.inv_addData M d e ih value logLambda separation redshift h
  | addCovariance d e i j value _ h ih =>
    exact LyaData.inv_addCovariance d e ih i j value h

theorem vget_vset_true (v : List Bool) (i j : Int) (h : vget v i false = true) :
    vget (vset v j true) i false = true := by
  by_cases hij : j.toNat = i.toNat
  · have hlt : i.toNat < v.length := by
      by_contra hcon
      rw [vget, List.getD_eq_default _ _ (not_lt.1 hcon)] at h
      exact Bool.noConfusion h
    simp [vget, vset, List.getD_eq_getElem?_getD, List.getElem?_set, hij, hlt]
  · rw [vget_vset_ne _ _ _ _ _ hij]; exact h

theorem vget_append_true (v w : List Bool) (i : Int) (h : vget v i false = true) :
    vget (v ++ w) i false = true := by
  have hlt : i.toNat < v.length := by
    by_contra hcon
    rw [vget, List.getD_eq_default _ _ (not_lt.1 hcon)] at h
    exact Bool.noConfusion h
  rw [vget, List.getD_append _ _ _ _ hlt]
  exact h

/-- Later calls keep the binnings and the two strides, and never clear a flag. -/
theorem LyaData.Extends.frame (M : CMath K) (d e : LyaData K) (h : LyaData.Extends M d e) :
    e._logLambdaBinning = d._logLambdaBinning ∧ e._separationBinning = d._separationBinning ∧
    e._redshiftBinning = d._redshiftBinning ∧ e._nsep = d._nsep ∧ e._nz = d._nz ∧
    (∀ i : Int, vget d._initialized i false = true → vget e._initialized i false = true) ∧
    (∀ k : Int, vget d._hasCov k false = true → vget e._hasCov k false = true) := by
  induction h with
  | refl => exact ⟨rfl, rfl, rfl, rfl, rfl, fun _ h => h, fun _ h => h⟩
  | addData e f value logLambda separation redshift _ hf ih =>
    obtain ⟨h1, h2, h3, h4, h5, h6, h7⟩ := ih
    obtain ⟨a, b, c, -, -, -, -, -, -, -, -, -, -, -, -, -, hrec⟩ :=
      (LyaData.addData_eq_some_iff M e f value logLambda separation redshift).1 hf
    subst hrec
    exact ⟨h1, h2, h3, h4, h5, fun i hi => vget_vset_true _ _ _ (h6 i hi),
      fun k hk => vget_append_true _ _ _ (h7 k hk)⟩
  | addCovariance e f i j value _ hf ih =>
    obtain ⟨h1, h2, h3, h4, h5, h6, h7⟩ := ih
    obtain ⟨-, -, -, -, -, hrec⟩ := (LyaData.addCovariance_eq_some_iff e f i j value).1 hf
    subst hrec
    exact ⟨h1, h2, h3, h4, h5, h6, fun k hk => vget_vset_true _ _ _ (h7 k hk)⟩

theorem exampleBinning_getBinIndex :
    (exampleBinning : Binning K).getBinIndex 0.5 = some 0 := by
  rw [Binning.getBinIndex_eq_some]
  refine ⟨?_, le_refl _, by simp [exampleBinning]⟩
  rw [Int.floor_eq_iff]
  constructor <;> norm_num [exampleBinning]

omit [FloorRing K] in
theorem exampleBinning_getBinCenter :
    (exampleBinning : Binning K).getBinCenter 0 = some 0.5 := by
  rw [Binning.getBinCenter_eq_some]
  refine ⟨le_refl _, by simp [exampleBinning], ?_⟩
  norm_num [exampleBinning]

theorem exampleEmpty_addData (M : CMath K) (c : AbsHomogeneousUniverse K) :
    (exampleEmpty M c).addData M 10 0.5 0.5 0.5 = some (exampleFilled M c) := by
  rw [LyaData.addData_eq_some_iff]
  refine ⟨0, 0, 0, 0.5, 0.5, 0.5, exampleBinning_getBinIndex, exampleBinning_getBinIndex,
    exampleBinning_getBinIndex, exampleBinning_getBinCenter, by norm_num,
    exampleBinning_getBinCenter, by norm_num, exampleBinning_getBinCenter, by norm_num, ?_, ?_⟩
  · simp [exampleEmpty, LyaData.new, vget]
  · simp [exampleFilled, exampleEmpty, LyaData.new, Binning.getBinSize, exampleBinning]

omit [FloorRing K] in
theorem exampleFilled_addCovariance (M : CMath K) (c : AbsHomogeneousUniverse K) :
    (exampleFilled M c).addCovariance 0 0 4 = some (exampleComplete M c) := by
  rw [LyaData.addCovariance_eq_some_iff]
  refine ⟨le_refl _, ?_, rfl, by norm_num, ?_, ?_⟩
  · simp [exampleFilled, LyaData.getNData]
  · simp [exampleFilled, vget]
  · simp [exampleComplete, exampleFilled, vget, vset]

theorem exampleEmpty_reachable (M : CMath K) (c : AbsHomogeneousUniverse K) :
    LyaData.Reachable M (exampleEmpty M c) :=
  LyaData.Reachable.new _ _ _ _

theorem exampleFilled_reachable (M : CMath K) (c : AbsHomogeneousUniverse K) :
    LyaData.Reachable M (exampleFilled M c) :=
  LyaData.Reachable.addData _ _ _ _ _ _ (exampleEmpty_reachable M c) (exampleEmpty_addData M c)

theorem exampleComplete_reachable (M : CMath K) (c : AbsHomogeneousUniverse K) :
    LyaData.Reachable M (exampleComplete M c) :=
  LyaData.Reachable.addCovariance _ _ _ _ _ (exampleFilled_reachable M c)
    (exampleFilled_addCovariance M c)

/-! ### Filling the dataset -/

/-- C5: on a dataset the program can build, `addCovariance(i, j, value)` succeeds exactly when
`0 ≤ i < getNData()`, `i = j`, `value > 0` and the variance flag of the `i`-th active bin is
not set. It fails whenever `i ≠ j`, whenever `i` is not the position of an active bin, and,
whatever calls were made in between, whenever an earlier call with the same `i` succeeded. -/
theorem LyaData.addCovariance_succeeds_iff (M : CMath K) (d : LyaData K)
    (hd : LyaData.Reachable M d) (i j : Int) (value : K) :
    ((d.addCovariance i j value).isSome ↔
      0 ≤ i ∧ i < d.getNData ∧ i = j ∧ 0 < value ∧ vget d._hasCov i false = false) ∧
    (i ≠ j → d.addCovariance i j value = none) ∧
    (¬ (0 ≤ i ∧ i < d.getNData) → d.addCovariance i j value = none) ∧
    (∀ e f : LyaData K, d.addCovariance i j value = some e → LyaData.Extends M e f →
      ∀ (j2 : Int) (value2 : K), f.addCovariance i j2 value2 = none) := by
  have hiff : (d.addCovariance i j value).isSome ↔
      0 ≤ i ∧ i < d.getNData ∧ i = j ∧ 0 < value ∧ vget d._hasCov i false = false := by
    rw [Option.isSome_iff_exists]
    constructor
    · rintro ⟨e, he⟩
      obtain ⟨h1, h2, h3, h4, h5, -⟩ := (LyaData.addCovariance_eq_some_iff d e i j value).1 he
      exact ⟨h1, h2, h3, h4, h5⟩
    · rintro ⟨h1, h2, h3, h4, h5⟩
      exact ⟨_, (LyaData.addCovariance_eq_some_iff d _ i j value).2 ⟨h1, h2, h3, h4, h5, rfl⟩⟩
  refine ⟨hiff, ?_, ?_, ?_⟩
  · intro hne
    rw [← Option.not_isSome_iff_eq_none, hiff]
    exact fun h => hne h.2.2.1
  · intro hne
    rw [← Option.not_isSome_iff_eq_none, hiff]
    exact fun h => hne ⟨h.1, h.2.1⟩
  · intro e f he hf j2 value2
    obtain ⟨h0, h1, -, -, -, hrec⟩ := (LyaData.addCovariance_eq_some_iff d e i j value).1 he
    have hlen : i < (d._hasCov.length : Int) := by
      rw [(LyaData.Reachable.inv M d hd).size_hasCov]; exact h1
    have hte : vget e._hasCov i false = true := by
      subst hrec
      exact vget_vset_self _ _ _ _ h0 hlen
    obtain ⟨-, -, -, -, -, -, g7⟩ := LyaData.Extends.frame M e f hf
    cases h2 : f.addCovariance i j2 value2 with
    | none => rfl
    | some f2 =>
      exfalso
      obtain ⟨-, -, -, -, hflag, -⟩ := (LyaData.addCovariance_eq_some_iff f f2 i j2 value2).1 h2
      rw [g7 _ hte] at hflag
      exact Bool.noConfusion hflag

/-- In the scenario dataset the variance of the one active bin was set to `4`; setting it again
to `9` fails. -/
theorem LyaData.addCovariance_succeeds_iff_witness :
    LyaData.Reachable ⟨Real.exp, Real.sqrt, Real.rpow, Real.arctan⟩
      (exampleFilled ⟨Real.exp, Real.sqrt, Real.rpow, Real.arctan⟩ ⟨fun z => z, fun _ => 1⟩) ∧
    (exampleComplete ⟨Real.exp, Real.sqrt, Real.rpow, Real.arctan⟩
      ⟨fun z => z, fun _ => 1⟩).addCovariance 0 0 9 = none :=
  ⟨exampleFilled_reachable _ _,
    (LyaData.addCovariance_succeeds_iff ⟨Real.exp, Real.sqrt, Real.rpow, Real.arctan⟩ _
      (exampleFilled_reachable _ _) 0 0 4).2.2.2 _ _ (exampleFilled_addCovariance _ _)
      (LyaData.Extends.refl _) 0 9⟩

/-- C6: on a dataset the program can build, if `getNCov() == getNData()` then every active bin
`k` has its variance flag set and `getVariance(getIndex(k)) > 0`, so the variance the likelihood
divides by is not zero. -/
theorem LyaData.variance_pos_of_complete (M : CMath K) (d : LyaData K)
    (hd : LyaData.Reachable M d) (hn : d.getNCov = d.getNData) (k : Int) (hk0 : 0 ≤ k)
    (hk : k < d.getNData) :
    vget d._hasCov k false = true ∧ 0 < d.getVariance (d.getIndex k) ∧
      d.getVariance (d.getIndex k) ≠ 0 := by
  have hinv := LyaData.Reachable.inv M d hd
  have hcount : d._hasCov.count true = d._hasCov.length := by
    have h1 : ((d._hasCov.count true : Nat) : Int) = (d._index.length : Int) := hn
    rw [hinv.size_hasCov]
    exact_mod_cast h1
  have hall := List.count_eq_length.1 hcount
  have hkn : k.toNat < d._index.length := (Int.toNat_lt hk0).2 hk
  have hflag : d._hasCov.getD k.toNat false = true :=
    (hall _ (getD_mem _ _ _ (by rw [hinv.size_hasCov]; exact hkn))).symm
  have hpos : 0 < d.getVariance (d.getIndex k) := hinv.cov_pos k.toNat hkn hflag
  exact ⟨hflag, hpos, ne_of_gt hpos⟩

/-- The scenario dataset has one active bin and one variance, and that variance is positive. -/
theorem LyaData.variance_pos_of_complete_witness :
    LyaData.Reachable ⟨Real.exp, Real.sqrt, Real.rpow, Real.arctan⟩
      (exampleComplete ⟨Real.exp, Real.sqrt, Real.rpow, Real.arctan⟩ ⟨fun z => z, fun _ => 1⟩) ∧
    (exampleComplete ⟨Real.exp, Real.sqrt, Real.rpow, Real.arctan⟩
        ⟨fun z => z, fun _ => 1⟩).getNCov =
      (exampleComplete ⟨Real.exp, Real.sqrt, Real.rpow, Real.arctan⟩
        ⟨fun z => z, fun _ => 1⟩).getNData ∧
    (0 : Int) ≤ 0 ∧
    (0 : Int) < (exampleComplete ⟨Real.exp, Real.sqrt, Real.rpow, Real.arctan⟩
        ⟨fun z => z, fun _ => 1⟩).getNData ∧
    0 < (exampleComplete ⟨Real.exp, Real.sqrt, Real.rpow, Real.arctan⟩
        ⟨fun z => z, fun _ => 1⟩).getVariance
      ((exampleComplete ⟨Real.exp, Real.sqrt, Real.rpow, Real.arctan⟩
        ⟨fun z => z, fun _ => 1⟩).getIndex 0) :=
  ⟨exampleComplete_reachable _ _, by simp [exampleComplete, exampleFilled, LyaData.getNCov,
      LyaData.getNData], le_refl _, by simp [exampleComplete, exampleFilled, LyaData.getNData],
    (LyaData.variance_pos_of_complete ⟨Real.exp, Real.sqrt, Real.rpow, Real.arctan⟩ _
      (exampleComplete_reachable _ _) (by simp [exampleComplete, exampleFilled, LyaData.getNCov,
      LyaData.getNData]) 0 (le_refl _) (by simp [exampleComplete, exampleFilled,
      LyaData.getNData])).2.1⟩

/-! ### The model -/

omit [FloorRing K] in
theorem LyaBaoModel.evaluate_fst (M : CMath K) (m : LyaBaoModel K)
    (r mu z alpha bias beta ampl scale : K) :
    (m.evaluate M r mu z [alpha, bias, beta, ampl, scale]).1 =
      bias * bias * M.pow ((1 + z) / (1 + m._zref)) alpha *
        (ampl * (m._fid.xi beta (r * scale) mu - m._nw.xi beta (r * scale) mu) +
          m._nw.xi beta (r * scale) mu) :=
  rfl

omit [FloorRing K] in
/-- C2: with `ampl = 0` the value of `evaluate` is `bias² · ((1+z)/(1+zref))^alpha · nw(r·scale, mu)`
with the no-wiggle function taken at distortion `beta`, whatever the fiducial function is:
replacing `_fid` by any other function leaves the value unchanged. -/
theorem LyaBaoModel.evaluate_ampl_zero (M : CMath K) (m : LyaBaoModel K)
    (r mu z alpha bias beta scale : K) :
    (m.evaluate M r mu z [alpha, bias, beta, 0, scale]).1 =
      bias ^ 2 * M.pow ((1 + z) / (1 + m._zref)) alpha * m._nw.xi beta (r * scale) mu ∧
    ∀ fid : RsdCorrelationFunction K,
      ({ m with _fid := fid }.evaluate M r mu z [alpha, bias, beta, 0, scale]).1 =
        (m.evaluate M r mu z [alpha, bias, beta, 0, scale]).1 := by
  constructor
  · rw [LyaBaoModel.evaluate_fst]; ring
  · intro fid
    rw [LyaBaoModel.evaluate_fst, LyaBaoModel.evaluate_fst]; ring

omit [FloorRing K] in
/-- C3: when the fiducial and the no-wiggle functions are the same, `evaluate` returns
`bias² · ((1+z)/(1+zref))^alpha · nw(r·scale, mu)` for every `ampl`. -/
theorem LyaBaoModel.evaluate_same_templates (M : CMath K) (m : LyaBaoModel K)
    (hsame : m._fid.xi = m._nw.xi) (r mu z alpha bias beta ampl scale : K) :
    (m.evaluate M r mu z [alpha, bias, beta, ampl, scale]).1 =
      bias ^ 2 * M.pow ((1 + z) / (1 + m._zref)) alpha * m._nw.xi beta (r * scale) mu := by
  rw [LyaBaoModel.evaluate_fst, hsame]; ring

/-- Both templates equal to `(beta, r, mu) ↦ beta + r·mu`, reference redshift `9/4`, `ampl = 1`:
the value is `bias² · zfactor · (beta + r·scale·mu)`. -/
theorem LyaBaoModel.evaluate_same_templates_witness :
    (fun b r mu : ℝ => b + r * mu) = (fun b r mu : ℝ => b + r * mu) ∧
    ((⟨9 / 4, ⟨fun b r mu => b + r * mu, 0⟩, ⟨fun b r mu => b + r * mu, 0⟩⟩ :
        LyaBaoModel ℝ).evaluate ⟨Real.exp, Real.sqrt, Real.rpow, Real.arctan⟩
        100 (1 / 2) 2 [4, 1 / 5, 4 / 5, 1, 1]).1 =
      (1 / 5 : ℝ) ^ 2 * Real.rpow ((1 + 2) / (1 + 9 / 4)) 4 * (4 / 5 + 100 * 1 * (1 / 2)) :=
  ⟨rfl, LyaBaoModel.evaluate_same_templates ⟨Real.exp, Real.sqrt, Real.rpow, Real.arctan⟩
    ⟨9 / 4, ⟨fun b r mu => b + r * mu, 0⟩, ⟨fun b r mu => b + r * mu, 0⟩⟩ rfl
    100 (1 / 2) 2 4 (1 / 5) (4 / 5) 1 1⟩

/-! ### The likelihood -/

omit [FloorRing K] in
theorem LyaBaoModel.evaluate_fst_congr (M : CMath K) (m n : LyaBaoModel K)
    (hz : m._zref = n._zref) (hf : m._fid.xi = n._fid.xi) (hn : m._nw.xi = n._nw.xi)
    (r mu z : K) (p : List K) : (m.evaluate M r mu z p).1 = (n.evaluate M r mu z p).1 := by
  simp only [LyaBaoModel.evaluate, RsdCorrelationFunction.call,
    RsdCorrelationFunction.setDistortion, hz, hf, hn]

omit [FloorRing K] in
theorem LyaBaoModel.evaluate_snd (M : CMath K) (m : LyaBaoModel K) (r mu z : K) (p : List K) :
    (m.evaluate M r mu z p).2._zref = m._zref ∧ (m.evaluate M r mu z p).2._fid.xi = m._fid.xi ∧
      (m.evaluate M r mu z p).2._nw.xi = m._nw.xi :=
  ⟨rfl, rfl, rfl⟩

omit [FloorRing K] in
/-- On a dataset the program can build, `getRedshift` succeeds on every active index. -/
theorem LyaData.getRedshift_isSome (d : LyaData K) (hd : d.Inv) (k : Nat)
    (hk : k < d._index.length) : ∃ z : K, d.getRedshift (d.getIndex k) = some z := by
  have hmem : d.getIndex k ∈ d._index := by
    rw [LyaData.getIndex, vget_natCast]
    exact getD_mem _ _ _ hk
  have h0 := hd.index_nonneg _ hmem
  have hnz := hd.nz_pos _ hmem
  refine ⟨_, (Binning.getBinCenter_eq_some _ _ _).2 ⟨?_, ?_, rfl⟩⟩
  · rw [Int.tmod_eq_emod h0 hnz.le]
    exact Int.emod_nonneg _ (ne_of_gt hnz)
  · rw [Int.tmod_eq_emod h0 hnz.le, ← hd.nz_eq]
    exact Int.emod_lt_of_pos _ hnz

omit [FloorRing K] in
theorem LyaBaoLikelihood.foldlM_body (M : CMath K) (data : LyaData K) (params : List K)
    (m0 : LyaBaoModel K) (z : Nat → K) (ks : List Nat)
    (hz : ∀ k ∈ ks, data.getRedshift (data.getIndex k) = some (z k)) :
    ∀ (acc : K) (m : LyaBaoModel K), m._zref = m0._zref → m._fid.xi = m0._fid.xi →
      m._nw.xi = m0._nw.xi →
      ∃ m2 : LyaBaoModel K,
        ks.foldlM (LyaBaoLikelihood.body M data params) (acc, m) =
          some (acc + (ks.map fun k : Nat =>
            (data.getData (data.getIndex k) -
              (m0.evaluate M (data.getRadius (data.getIndex k))
                (data.getCosAngle (data.getIndex k)) (z k) params).1) ^ 2 /
              data.getVariance (data.getIndex k)).sum, m2) := by
  induction ks with
  | nil =>
    intro acc m _ _ _
    exact ⟨m, by simp⟩
  | cons k ks ih =>
    intro acc m h1 h2 h3
    have hk := hz k (List.mem_cons_self _ _)
    obtain ⟨g1, g2, g3⟩ := LyaBaoModel.evaluate_snd M m (data.getRadius (data.getIndex k))
      (data.getCosAngle (data.getIndex k)) (z k) params
    obtain ⟨m2, hm2⟩ := ih (fun j hj => hz j (List.mem_cons_of_mem _ hj))
      (acc + (data.getData (data.getIndex k) -
        (m.evaluate M (data.getRadius (data.getIndex k))
          (data.getCosAngle (data.getIndex k)) (z k) params).1) *
        (data.getData (data.getIndex k) -
        (m.evaluate M (data.getRadius (data.getIndex k))
          (data.getCosAngle (data.getIndex k)) (z k) params).1) /
        data.getVariance (data.getIndex k))
      (m.evaluate M (data.getRadius (data.getIndex k))
          (data.getCosAngle (data.getIndex k)) (z k) params).2
      (g1.trans h1) (g2.trans h2) (g3.trans h3)
    refine ⟨m2, ?_⟩
    rw [List.foldlM_cons]
    simp only [LyaBaoLikelihood.body, hk, bind, Option.bind]
    rw [hm2, LyaBaoModel.evaluate_fst_congr M m m0 h1 h2 h3]
    simp only [List.map_cons, List.sum_cons, Option.some.injEq, Prod.mk.injEq, and_true]
    ring

/-- C1: on a dataset the program can build, `getRedshift` succeeds on every active bin and
`operator()(p)` returns `0.5 · Σ (getData(i_k) - evaluate(getRadius(i_k), getCosAngle(i_k),
getRedshift(i_k), p))² / getVariance(i_k)`, the sum running over `k = 0 .. getNData()-1` in
this order, with `i_k = getIndex(k)`. -/
theorem LyaBaoLikelihood.call_eq_half_chi2 (M : CMath K) (L : LyaBaoLikelihood K)
    (hd : LyaData.Reachable M L._data) (params : List K) :
    ∃ z : Nat → K,
      (∀ k : Nat, (k : Int) < L._data.getNData →
        L._data.getRedshift (L._data.getIndex k) = some (z k)) ∧
      (L.call M params).map Prod.fst =
        some (0.5 * ((List.range L._data.getNData.toNat).map fun k : Nat =>
          (L._data.getData (L._data.getIndex k) -
            (L._model.evaluate M (L._data.getRadius (L._data.getIndex k))
              (L._data.getCosAngle (L._data.getIndex k)) (z k) params).1) ^ 2 /
            L._data.getVariance (L._data.getIndex k)).sum) := by
  have hinv := LyaData.Reachable.inv M L._data hd
  refine ⟨fun k => (L._data.getRedshift (L._data.getIndex k)).getD 0, ?_, ?_⟩
  · intro k hk
    have hk2 : k < L._data._index.length := by simpa [LyaData.getNData] using hk
    obtain ⟨z, hz⟩ := LyaData.getRedshift_isSome L._data hinv k hk2
    simp [hz]
  · have hz : ∀ k ∈ List.range L._data.getNData.toNat,
        L._data.getRedshift (L._data.getIndex k) =
          some ((L._data.getRedshift (L._data.getIndex k)).getD 0) := by
      intro k hk
      have hk2 : k < L._data._index.length := by simpa [LyaData.getNData] using hk
      obtain ⟨z, hz⟩ := LyaData.getRedshift_isSome L._data hinv k hk2
      simp [hz]
    obtain ⟨m2, hm2⟩ := LyaBaoLikelihood.foldlM_body M L._data params L._model
      (fun k => (L._data.getRedshift (L._data.getIndex k)).getD 0) _ hz 0 L._model rfl rfl rfl
    simp only [LyaBaoLikelihood.call, hm2, bind, Option.bind, Option.map, zero_add]

omit [FloorRing K] in
theorem exampleComplete_values (M : CMath K) (c : AbsHomogeneousUniverse K) :
    (exampleComplete M c).getNData = 1 ∧ (exampleComplete M c).getIndex (0 : Nat) = 0 ∧
      (exampleComplete M c).getData 0 = 10 ∧ (exampleComplete M c).getVariance 0 = 4 := by
  refine ⟨rfl, rfl, ?_, ?_⟩ <;>
    simp [exampleComplete, exampleFilled, exampleEmpty, LyaData.new, LyaData.getData,
      LyaData.getVariance, vget, vset, exampleBinning, Binning.getNBins, List.replicate]

omit [FloorRing K] in
theorem exampleComplete_chi2 (M : CMath K) (c : AbsHomogeneousUniverse K) (pred : Nat → K) :
    ((List.range (exampleComplete M c).getNData.toNat).map fun k : Nat =>
      ((exampleComplete M c).getData ((exampleComplete M c).getIndex k) - pred k) ^ 2 /
        (exampleComplete M c).getVariance ((exampleComplete M c).getIndex k)).sum =
      (10 - pred 0) ^ 2 / 4 := by
  obtain ⟨h1, h2, h3, h4⟩ := exampleComplete_values M c
  have hr : List.range (exampleComplete M c).getNData.toNat = [0] := by rw [h1]; rfl
  rw [hr]
  simp only [List.map_cons, List.map_nil, List.sum_cons, List.sum_nil, add_zero, h2, h3, h4]

/-- The scenario of the specification: binning `(2, 0, 1)` on each axis, the bin at
`(0.5, 0.5, 0.5)` filled with value `10` and variance `4`, and a model that predicts `5`
everywhere (both templates constant `5`, `bias = 1`, `alpha = 0`): the likelihood is `3.125`. -/
theorem LyaBaoLikelihood.call_eq_half_chi2_witness :
    LyaData.Reachable ⟨Real.exp, Real.sqrt, Real.rpow, Real.arctan⟩
      (LyaBaoLikelihood.new
        (exampleComplete ⟨Real.exp, Real.sqrt, Real.rpow, Real.arctan⟩ ⟨fun z => z, fun _ => 1⟩)
        ⟨9 / 4, ⟨fun _ _ _ => 5, 0⟩, ⟨fun _ _ _ => 5, 0⟩⟩)._data ∧
    ((LyaBaoLikelihood.new
        (exampleComplete ⟨Real.exp, Real.sqrt, Real.rpow, Real.arctan⟩ ⟨fun z => z, fun _ => 1⟩)
        ⟨9 / 4, ⟨fun _ _ _ => 5, 0⟩, ⟨fun _ _ _ => 5, 0⟩⟩).call
      ⟨Real.exp, Real.sqrt, Real.rpow, Real.arctan⟩ [0, 1, 0.8, 1, 1]).map Prod.fst =
        some (3.125 : ℝ) := by
  refine ⟨exampleComplete_reachable _ _, ?_⟩
  obtain ⟨z, -, hcall⟩ := LyaBaoLikelihood.call_eq_half_chi2
    ⟨Real.exp, Real.sqrt, Real.rpow, Real.arctan⟩
    (LyaBaoLikelihood.new
      (exampleComplete ⟨Real.exp, Real.sqrt, Real.rpow, Real.arctan⟩ ⟨fun z => z, fun _ => 1⟩)
      ⟨9 / 4, ⟨fun _ _ _ => 5, 0⟩, ⟨fun _ _ _ => 5, 0⟩⟩)
    (exampleComplete_reachable _ _) [0, 1, 0.8, 1, 1]
  refine hcall.trans ?_
  refine (congrArg (fun t : ℝ => some (0.5 * t)) (exampleComplete_chi2 _ _ _)).trans ?_
  have hp : ∀ x : ℝ, Real.rpow x 0 = 1 := Real.rpow_zero
  simp only [LyaBaoLikelihood.new, LyaBaoModel.evaluate_fst, hp]
  norm_num

/-! ### The coordinate transform -/

/-- C9: with `std::sqrt` the real square root, whenever `sep ≠ 0` and the radius computed by
`transform` is not zero, the cosine it computes lies in `[0, 1]`. -/
theorem LyaData.transform_cosAngle_mem (exp atan : ℝ → ℝ) (pow : ℝ → ℝ → ℝ) (d : LyaData ℝ)
    (ll sep z ds : ℝ) (_hsep : sep ≠ 0)
    (_hr : (d.transform ⟨exp, Real.sqrt, pow, atan⟩ ll sep z ds).1 ≠ 0) :
    0 ≤ (d.transform ⟨exp, Real.sqrt, pow, atan⟩ ll sep z ds).2 ∧
      (d.transform ⟨exp, Real.sqrt, pow, atan⟩ ll sep z ds).2 ≤ 1 := by
  simp only [LyaData.transform]
  constructor
  · exact div_nonneg (abs_nonneg _) (Real.sqrt_nonneg _)
  · apply div_le_one_of_le₀ _ (Real.sqrt_nonneg _)
    apply Real.abs_le_sqrt
    nlinarith [mul_self_nonneg (d._cosmology.getTransverseComovingScale z *
      ((sep + ds * ds / 12 / sep) * d._arcminToRad))]

/-- With the transverse scale `1`, `ll = 1/2`, `sep = 5`, `z = 2` and `ds = 10` the radius is
not zero, and the cosine lies in `[0, 1]`. -/
theorem LyaData.transform_cosAngle_mem_witness :
    (5 : ℝ) ≠ 0 ∧
    ((exampleEmpty ⟨Real.exp, Real.sqrt, Real.rpow, Real.arctan⟩
      ⟨fun z => z, fun _ => 1⟩).transform ⟨Real.exp, Real.sqrt, Real.rpow, Real.arctan⟩
        (1 / 2) 5 2 10).1 ≠ 0 ∧
    0 ≤ ((exampleEmpty ⟨Real.exp, Real.sqrt, Real.rpow, Real.arctan⟩
      ⟨fun z => z, fun _ => 1⟩).transform ⟨Real.exp, Real.sqrt, Real.rpow, Real.arctan⟩
        (1 / 2) 5 2 10).2 ∧
    ((exampleEmpty ⟨Real.exp, Real.sqrt, Real.rpow, Real.arctan⟩
      ⟨fun z => z, fun _ => 1⟩).transform ⟨Real.exp, Real.sqrt, Real.rpow, Real.arctan⟩
        (1 / 2) 5 2 10).2 ≤ 1 := by
  have hr : ((exampleEmpty ⟨Real.exp, Real.sqrt, Real.rpow, Real.arctan⟩
      ⟨fun z => z, fun _ => 1⟩).transform ⟨Real.exp, Real.sqrt, Real.rpow, Real.arctan⟩
        (1 / 2) 5 2 10).1 ≠ 0 := by
    simp only [LyaData.transform, exampleEmpty, LyaData.new]
    rw [Real.sqrt_ne_zero']
    apply add_pos_of_nonneg_of_pos (mul_self_nonneg _)
    apply mul_self_pos.2
    rw [Real.arctan_one]
    have := Real.pi_pos
    positivity
  exact ⟨by norm_num, hr, LyaData.transform_cosAngle_mem Real.exp Real.arctan Real.rpow _
    (1 / 2) 5 2 10 (by norm_num) hr⟩

omit [FloorRing K] in
/-- C10: for `sep ≠ 0`, `transform` computes the same radius and the same cosine at `-sep` as
at `sep`. -/
theorem LyaData.transform_neg_sep (M : CMath K) (d : LyaData K) (ll sep z ds : K)
    (_hsep : sep ≠ 0) :
    (d.transform M ll (-sep) z ds).1 = (d.transform M ll sep z ds).1 ∧
      (d.transform M ll (-sep) z ds).2 = (d.transform M ll sep z ds).2 := by
  have hw : -sep + ds * ds / 12 / -sep = -(sep + ds * ds / 12 / sep) := by
    rw [div_neg]; ring
  have hq : ∀ t a : K, t * (-(sep + ds * ds / 12 / sep) * a) *
      (t * (-(sep + ds * ds / 12 / sep) * a)) =
      t * ((sep + ds * ds / 12 / sep) * a) * (t * ((sep + ds * ds / 12 / sep) * a)) := by
    intro t a; ring
  simp only [LyaData.transform, hw, hq, and_self]

/-- The transform of the scenario dataset gives the same radius and cosine at `sep = -5` and at
`sep = 5`. -/
theorem LyaData.transform_neg_sep_witness :
    (5 : ℝ) ≠ 0 ∧
    ((exampleEmpty ⟨Real.exp, Real.sqrt, Real.rpow, Real.arctan⟩
      ⟨fun z => z, fun _ => 1⟩).transform ⟨Real.exp, Real.sqrt, Real.rpow, Real.arctan⟩
        (1 / 2) (-5) 2 10).1 =
      ((exampleEmpty ⟨Real.exp, Real.sqrt, Real.rpow, Real.arctan⟩
        ⟨fun z => z, fun _ => 1⟩).transform ⟨Real.exp, Real.sqrt, Real.rpow, Real.arctan⟩
          (1 / 2) 5 2 10).1 ∧
    ((exampleEmpty ⟨Real.exp, Real.sqrt, Real.rpow, Real.arctan⟩
      ⟨fun z => z, fun _ => 1⟩).transform ⟨Real.exp, Real.sqrt, Real.rpow, Real.arctan⟩
        (1 / 2) (-5) 2 10).2 =
      ((exampleEmpty ⟨Real.exp, Real.sqrt, Real.rpow, Real.arctan⟩
        ⟨fun z => z, fun _ => 1⟩).transform ⟨Real.exp, Real.sqrt, Real.rpow, Real.arctan⟩
          (1 / 2) 5 2 10).2 :=
  ⟨by norm_num, LyaData.transform_neg_sep ⟨Real.exp, Real.sqrt, Real.rpow, Real.arctan⟩
    (exampleEmpty ⟨Real.exp, Real.sqrt, Real.rpow, Real.arctan⟩ ⟨fun z => z, fun _ => 1⟩)
    (1 / 2) 5 2 10 (by norm_num)⟩

/-! ### What `addData` stores -/

theorem LyaData.Reachable.ds_eq (M : CMath K) (d : LyaData K) (hd : LyaData.Reachable M d) :
    d._ds = d._separationBinning.getBinSize := by
  induction hd with
  | new l s z c => rfl
  | addData d e value logLambda separation redshift _ h ih =>
    obtain ⟨a, b, c, -, -, -, -, -, -, -, -, -, -, -, -, -, hrec⟩ :=
      (LyaData.addData_eq_some_iff M d e value logLambda separation redshift).1 h
    subst hrec
    exact ih
  | addCovariance d e i j value _ h ih =>
    obtain ⟨-, -, -, -, -, hrec⟩ := (LyaData.addCovariance_eq_some_iff d e i j value).1 h
    subst hrec
    exact ih

/-- The radius and the cosine that a successful `addData` stores at the flattened index of the
bin it filled are the ones `transform` computes from the coordinates it was called with. -/
theorem LyaData.addData_stored (M : CMath K) (d e : LyaData K) (hd : LyaData.Reachable M d)
    (value logLambda separation redshift : K)
    (h : d.addData M value logLambda separation redshift = some e) :
    ∃ a b c : Int,
      d._logLambdaBinning.getBinIndex logLambda = some a ∧
      d._separationBinning.getBinIndex separation = some b ∧
      d._redshiftBinning.getBinIndex redshift = some c ∧
      e.getData ((a * d._separationBinning.getNBins + b) * d._redshiftBinning.getNBins + c) =
        value ∧
      e.getRadius ((a * d._separationBinning.getNBins + b) * d._redshiftBinning.getNBins + c) =
        (d.transform M logLambda separation redshift d._separationBinning.getBinSize).1 ∧
      e.getCosAngle ((a * d._separationBinning.getNBins + b) * d._redshiftBinning.getNBins + c) =
        (d.transform M logLambda separation redshift d._separationBinning.getBinSize).2 := by
  have hinv := LyaData.Reachable.inv M d hd
  obtain ⟨a, b, c, ha, hb, hc, -, -, hi0, hi1, -, hrec⟩ :=
    LyaData.addData_index M d e hinv value logLambda separation redshift h
  have hnn : (0 : Int) ≤ d._logLambdaBinning._nBins * d._nsep * d._nz := le_trans hi0 hi1.le
  have hlen : ∀ v : List K,
      v.length = (d._logLambdaBinning._nBins * d._nsep * d._nz).toNat →
      (a * d._nsep + b) * d._nz + c < (v.length : Int) := by
    intro v hv
    rw [hv, Int.toNat_of_nonneg hnn]; exact hi1
  refine ⟨a, b, c, ha, hb, hc, ?_, ?_, ?_⟩
  all_goals
    simp only [Binning.getNBins, ← hinv.nsep_eq, ← hinv.nz_eq,
      ← LyaData.Reachable.ds_eq M d hd]
    subst hrec
  · exact vget_vset_self _ _ _ _ hi0 (hlen _ hinv.size_data)
  · exact vget_vset_self _ _ _ _ hi0 (hlen _ hinv.size_r3d)
  · exact vget_vset_self _ _ _ _ hi0 (hlen _ hinv.size_mu)

/-- C11, as amended: after a successful `addData(value, ll, sep, z)` on a dataset the program
can build, the radius and the cosine stored at the flattened index of the filled bin are the
coordinate transform of the supplied coordinates `(ll, sep, z)` themselves, each of which lies
within `1e-6` of the center of its bin, with `ds` the separation bin width; they are the
transform of the bin centers when the supplied coordinates are exactly the centers. -/
theorem LyaData.addData_transform_of_inputs (M : CMath K) (d e : LyaData K)
    (hd : LyaData.Reachable M d) (value logLambda separation redshift : K)
    (h : d.addData M value logLambda separation redshift = some e) :
    ∃ a b c : Int, ∃ ca cb cc : K,
      d._logLambdaBinning.getBinIndex logLambda = some a ∧
      d._separationBinning.getBinIndex separation = some b ∧
      d._redshiftBinning.getBinIndex redshift = some c ∧
      d._logLambdaBinning.getBinCenter a = some ca ∧ |logLambda - ca| < 1e-6 ∧
      d._separationBinning.getBinCenter b = some cb ∧ |separation - cb| < 1e-6 ∧
      d._redshiftBinning.getBinCenter c = some cc ∧ |redshift - cc| < 1e-6 ∧
      e.getRadius ((a * d._separationBinning.getNBins + b) * d._redshiftBinning.getNBins + c) =
        (d.transform M logLambda separation redshift d._separationBinning.getBinSize).1 ∧
      e.getCosAngle ((a * d._separationBinning.getNBins + b) * d._redshiftBinning.getNBins + c) =
        (d.transform M logLambda separation redshift d._separationBinning.getBinSize).2 ∧
      (logLambda = ca → separation = cb → redshift = cc →
        e.getRadius
            ((a * d._separationBinning.getNBins + b) * d._redshiftBinning.getNBins + c) =
          (d.transform M ca cb cc d._separationBinning.getBinSize).1 ∧
        e.getCosAngle
            ((a * d._separationBinning.getNBins + b) * d._redshiftBinning.getNBins + c) =
          (d.transform M ca cb cc d._separationBinning.getBinSize).2) := by
  obtain ⟨a, b, c, ca, cb, cc, ha, hb, hc, hca, h1, hcb, h2, hcc, h3, -, -⟩ :=
    (LyaData.addData_eq_some_iff M d e value logLambda separation redshift).1 h
  obtain ⟨a2, b2, c2, ha2, hb2, hc2, -, hr, hm⟩ :=
    LyaData.addData_stored M d e hd value logLambda separation redshift h
  have ea : a2 = a := Option.some.inj (ha2.symm.trans ha)
  have eb : b2 = b := Option.some.inj (hb2.symm.trans hb)
  have ec : c2 = c := Option.some.inj (hc2.symm.trans hc)
  subst ea eb ec
  refine ⟨a2, b2, c2, ca, cb, cc, ha, hb, hc, hca, h1, hcb, h2, hcc, h3, hr, hm, ?_⟩
  intro e1 e2 e3
  subst e1 e2 e3
  exact ⟨hr, hm⟩

/-- The scenario dataset filled at its bin centers `(0.5, 0.5, 0.5)` stores the transform of
these centers. -/
theorem LyaData.addData_transform_of_inputs_witness :
    LyaData.Reachable ⟨Real.exp, Real.sqrt, Real.rpow, Real.arctan⟩
      (exampleEmpty ⟨Real.exp, Real.sqrt, Real.rpow, Real.arctan⟩ ⟨fun z => z, fun _ => 1⟩) ∧
    (exampleEmpty ⟨Real.exp, Real.sqrt, Real.rpow, Real.arctan⟩
      ⟨fun z => z, fun _ => 1⟩).addData ⟨Real.exp, Real.sqrt, Real.rpow, Real.arctan⟩
        10 0.5 0.5 0.5 =
      some (exampleFilled ⟨Real.exp, Real.sqrt, Real.rpow, Real.arctan⟩
        ⟨fun z => z, fun _ => 1⟩) ∧
    ∃ a b c : Int, ∃ ca cb cc : ℝ,
      (exampleBinning : Binning ℝ).getBinIndex 0.5 = some a ∧
      (exampleBinning : Binning ℝ).getBinIndex 0.5 = some b ∧
      (exampleBinning : Binning ℝ).getBinIndex 0.5 = some c ∧
      (exampleBinning : Binning ℝ).getBinCenter a = some ca ∧ |(0.5 : ℝ) - ca| < 1e-6 ∧
      (exampleBinning : Binning ℝ).getBinCenter b = some cb ∧ |(0.5 : ℝ) - cb| < 1e-6 ∧
      (exampleBinning : Binning ℝ).getBinCenter c = some cc ∧ |(0.5 : ℝ) - cc| < 1e-6 ∧
      (exampleFilled ⟨Real.exp, Real.sqrt, Real.rpow, Real.arctan⟩
          ⟨fun z => z, fun _ => 1⟩).getRadius
          ((a * (exampleBinning : Binning ℝ).getNBins + b) *
            (exampleBinning : Binning ℝ).getNBins + c) =
        ((exampleEmpty ⟨Real.exp, Real.sqrt, Real.rpow, Real.arctan⟩
          ⟨fun z => z, fun _ => 1⟩).transform ⟨Real.exp, Real.sqrt, Real.rpow, Real.arctan⟩
            0.5 0.5 0.5 (exampleBinning : Binning ℝ).getBinSize).1 :=
  ⟨exampleEmpty_reachable _ _, exampleEmpty_addData _ _, by
    obtain ⟨a, b, c, ca, cb, cc, h1, h2, h3, h4, h5, h6, h7, h8, h9, h10, -, -⟩ :=
      LyaData.addData_transform_of_inputs ⟨Real.exp, Real.sqrt, Real.rpow, Real.arctan⟩ _ _
        (exampleEmpty_reachable _ ⟨fun z => z, fun _ => 1⟩) 10 0.5 0.5 0.5
        (exampleEmpty_addData _ _)
    exact ⟨a, b, c, ca, cb, cc, h1, h2, h3, h4, h5, h6, h7, h8, h9, h10⟩⟩

/-- C11 as stated fails: the scenario dataset filled at `sep = 0.5000001`, which is within
`1e-6` of the bin center `0.5`, stores a radius that differs from the transform of the bin
centers `(0.5, 0.5, 0.5)`. -/
theorem LyaData.addData_transform_of_centers_counterexample :
    ∃ e : LyaData ℝ,
      (exampleEmpty ⟨Real.exp, Real.sqrt, Real.rpow, Real.arctan⟩
        ⟨fun z => z, fun _ => 1⟩).addData ⟨Real.exp, Real.sqrt, Real.rpow, Real.arctan⟩
          10 0.5 0.5000001 0.5 = some e ∧
      (exampleBinning : Binning ℝ).getBinIndex 0.5 = some 0 ∧
      (exampleBinning : Binning ℝ).getBinIndex 0.5000001 = some 0 ∧
      (exampleBinning : Binning ℝ).getBinCenter 0 = some 0.5 ∧
      e.getRadius ((0 * (exampleBinning : Binning ℝ).getNBins + 0) *
          (exampleBinning : Binning ℝ).getNBins + 0) ≠
        ((exampleEmpty ⟨Real.exp, Real.sqrt, Real.rpow, Real.arctan⟩
          ⟨fun z => z, fun _ => 1⟩).transform ⟨Real.exp, Real.sqrt, Real.rpow, Real.arctan⟩
            0.5 0.5 0.5 (exampleBinning : Binning ℝ).getBinSize).1 := by
  have hidx : (exampleBinning : Binning ℝ).getBinIndex 0.5000001 = some 0 := by
    rw [Binning.getBinIndex_eq_some]
    refine ⟨?_, le_refl _, by simp [exampleBinning]⟩
    rw [Int.floor_eq_iff]
    constructor <;> norm_num [exampleBinning]
  have hfill := (LyaData.addData_eq_some_iff ⟨Real.exp, Real.sqrt, Real.rpow, Real.arctan⟩
    (exampleEmpty ⟨Real.exp, Real.sqrt, Real.rpow, Real.arctan⟩ ⟨fun z => z, fun _ => 1⟩) _
    10 0.5 0.5000001 0.5).2 ⟨0, 0, 0, 0.5, 0.5, 0.5, exampleBinning_getBinIndex, hidx,
      exampleBinning_getBinIndex, exampleBinning_getBinCenter, by norm_num,
      exampleBinning_getBinCenter, by norm_num [abs_lt], exampleBinning_getBinCenter,
      by norm_num, by simp [exampleEmpty, LyaData.new, vget], rfl⟩
  refine ⟨_, hfill, exampleBinning_getBinIndex, hidx, exampleBinning_getBinCenter, ?_⟩
  obtain ⟨a, b, c, ha, hb, hc, -, hr, -⟩ := LyaData.addData_stored
    ⟨Real.exp, Real.sqrt, Real.rpow, Real.arctan⟩ _ _
    (exampleEmpty_reachable _ ⟨fun z => z, fun _ => 1⟩) 10 0.5 0.5000001 0.5 hfill
  have ea : a = 0 := Option.some.inj (ha.symm.trans exampleBinning_getBinIndex)
  have eb : b = 0 := Option.some.inj (hb.symm.trans hidx)
  have ec : c = 0 := Option.some.inj (hc.symm.trans exampleBinning_getBinIndex)
  subst ea eb ec
  refine fun heq => ?_
  have heq2 := hr.symm.trans heq
  simp only [LyaData.transform, exampleEmpty, LyaData.new, exampleBinning,
    Binning.getBinSize] at heq2
  rw [Real.sqrt_inj (add_nonneg (mul_self_nonneg _) (mul_self_nonneg _))
    (add_nonneg (mul_self_nonneg _) (mul_self_nonneg _)), Real.arctan_one] at heq2
  have hpi := Real.pi_pos
  have hA : (4 * (Real.pi / 4) / (60 * 180)) ^ 2 ≠ 0 := by positivity
  apply hA
  have h3 : ((0.5000001 + 1 * 1 / 12 / 0.5000001 : ℝ) ^ 2 - (0.5 + 1 * 1 / 12 / 0.5) ^ 2) *
      (4 * (Real.pi / 4) / (60 * 180)) ^ 2 = 0 := by
    linear_combination heq2
  rcases mul_eq_zero.1 h3 with h4 | h4
  · norm_num at h4
  · exact h4

theorem divmod_unique (n q r q2 r2 : Int) (hr0 : 0 ≤ r) (hr : r < n) (hs0 : 0 ≤ r2)
    (hs : r2 < n) (h : q * n + r = q2 * n + r2) : q = q2 ∧ r = r2 := by
  have hq : q = q2 := by
    rcases lt_trichotomy q q2 with hlt | heq | hgt
    · exfalso
      have h1 : (q + 1) * n ≤ q2 * n :=
        mul_le_mul_of_nonneg_right (by omega) (by omega)
      linarith
    · exact heq
    · exfalso
      have h1 : (q2 + 1) * n ≤ q * n :=
        mul_le_mul_of_nonneg_right (by omega) (by omega)
      linarith
  subst hq
  exact ⟨rfl, by linarith⟩

theorem flat_index_injective (nsep nz a b c a2 b2 c2 : Int) (hb0 : 0 ≤ b) (hb : b < nsep)
    (hc0 : 0 ≤ c) (hc : c < nz) (hb20 : 0 ≤ b2) (hb2 : b2 < nsep) (hc20 : 0 ≤ c2)
    (hc2 : c2 < nz) (h : (a * nsep + b) * nz + c = (a2 * nsep + b2) * nz + c2) :
    a = a2 ∧ b = b2 ∧ c = c2 := by
  obtain ⟨h1, h2⟩ := divmod_unique nz _ c _ c2 hc0 hc hc20 hc2 h
  obtain ⟨h3, h4⟩ := divmod_unique nsep a b a2 b2 hb0 hb hb20 hb2 h1
  exact ⟨h3, h4, h2⟩

theorem flat_index_surjective (nll nsep nz i : Int) (hsep : 0 < nsep) (hz : 0 < nz)
    (hi0 : 0 ≤ i) (hi : i < nll * nsep * nz) :
    ∃ a b c : Int, 0 ≤ a ∧ a < nll ∧ 0 ≤ b ∧ b < nsep ∧ 0 ≤ c ∧ c < nz ∧
      (a * nsep + b) * nz + c = i := by
  have hq0 : 0 ≤ i / nz := Int.ediv_nonneg hi0 hz.le
  have hq : i / nz < nll * nsep := Int.ediv_lt_of_lt_mul hz hi
  refine ⟨i / nz / nsep, i / nz % nsep, i % nz, Int.ediv_nonneg hq0 hsep.le,
    Int.ediv_lt_of_lt_mul hsep hq, Int.emod_nonneg _ (ne_of_gt hsep),
    Int.emod_lt_of_pos _ hsep, Int.emod_nonneg _ (ne_of_gt hz), Int.emod_lt_of_pos _ hz, ?_⟩
  have h1 : i / nz / nsep * nsep + i / nz % nsep = i / nz := by
    rw [mul_comm]; exact Int.ediv_add_emod _ _
  rw [h1, mul_comm]
  exact Int.ediv_add_emod _ _

/-- With unbounded integers, on a dataset the program can build from constructed binnings,
`getSize()` is `nll·nsep·nz`, and the flattening `(a, b, c) ↦ (a·_nsep + b)·_nz + c` of `addData`
sends the bin triples with `0 ≤ a < nll`, `0 ≤ b < nsep`, `0 ≤ c < nz` into `[0, getSize())`,
sends different triples to different indices, and reaches every index of `[0, getSize())`. -/
theorem LyaData.exact_flat_index (M : CMath K) (d : LyaData K)
    (hd : LyaData.Reachable M d) (hll : 0 < d._logLambdaBinning.getNBins)
    (hsep : 0 < d._separationBinning.getNBins) (hz : 0 < d._redshiftBinning.getNBins) :
    d._nsep = d._separationBinning.getNBins ∧ d._nz = d._redshiftBinning.getNBins ∧
    d.getSize = d._logLambdaBinning.getNBins * d._separationBinning.getNBins *
      d._redshiftBinning.getNBins ∧
    (∀ a b c : Int, 0 ≤ a → a < d._logLambdaBinning.getNBins → 0 ≤ b →
      b < d._separationBinning.getNBins → 0 ≤ c → c < d._redshiftBinning.getNBins →
      0 ≤ (a * d._nsep + b) * d._nz + c ∧ (a * d._nsep + b) * d._nz + c < d.getSize) ∧
    (∀ a b c a2 b2 c2 : Int, 0 ≤ a → a < d._logLambdaBinning.getNBins → 0 ≤ b →
      b < d._separationBinning.getNBins → 0 ≤ c → c < d._redshiftBinning.getNBins →
      0 ≤ a2 → a2 < d._logLambdaBinning.getNBins → 0 ≤ b2 →
      b2 < d._separationBinning.getNBins → 0 ≤ c2 → c2 < d._redshiftBinning.getNBins →
      (a * d._nsep + b) * d._nz + c = (a2 * d._nsep + b2) * d._nz + c2 →
      a = a2 ∧ b = b2 ∧ c = c2) ∧
    (∀ i : Int, 0 ≤ i → i < d.getSize →
      ∃ a b c : Int, 0 ≤ a ∧ a < d._logLambdaBinning.getNBins ∧ 0 ≤ b ∧
        b < d._separationBinning.getNBins ∧ 0 ≤ c ∧ c < d._redshiftBinning.getNBins ∧
        (a * d._nsep + b) * d._nz + c = i) := by
  have hinv := LyaData.Reachable.inv M d hd
  have hsize : d.getSize = d._logLambdaBinning.getNBins * d._separationBinning.getNBins *
      d._redshiftBinning.getNBins := by
    simp only [LyaData.getSize, hinv.size_data, Binning.getNBins, ← hinv.nsep_eq, ← hinv.nz_eq]
    apply Int.toNat_of_nonneg
    simp only [Binning.getNBins, ← hinv.nsep_eq, ← hinv.nz_eq] at hll hsep hz
    exact (mul_pos (mul_pos hll hsep) hz).le
  refine ⟨hinv.nsep_eq, hinv.nz_eq, hsize, ?_, ?_, ?_⟩
  · intro a b c ha0 ha hb0 hb hc0 hc
    rw [hsize, hinv.nsep_eq, hinv.nz_eq]
    exact flat_index_bounds _ _ _ a b c ha0 ha hb0 hb hc0 hc
  · intro a b c a2 b2 c2 _ _ hb0 hb hc0 hc _ _ hb20 hb2 hc20 hc2 h
    rw [hinv.nsep_eq, hinv.nz_eq] at h
    exact flat_index_injective _ _ a b c a2 b2 c2 hb0 hb hc0 hc hb20 hb2 hc20 hc2 h
  · intro i hi0 hi
    rw [hsize] at hi
    rw [hinv.nsep_eq, hinv.nz_eq]
    exact flat_index_surjective _ _ _ i hsep hz hi0 hi

/-! ### The redshift of a filled bin -/

theorem count_set_true (l : List Bool) (n : Nat) (hn : n < l.length)
    (h : l.getD n false = false) : (l.set n true).count true = l.count true + 1 := by
  have hget : l[n] = false := by rw [← List.getD_eq_getElem l false hn]; exact h
  rw [List.count_set _ _ _ _ hn, hget]
  simp

/-- C15: a successful `addCovariance(i, i, value)` on a dataset the program can build makes
`getVariance(getIndex(i)) == value`, increases `getNCov()` by one, and leaves unchanged every
stored value, radius and cosine, the list of active indices (so `getNData()` and `getIndex`),
and the variance of every other active bin. -/
theorem LyaData.addCovariance_frame (M : CMath K) (d e : LyaData K)
    (hr : LyaData.Reachable M d) (i : Int) (value : K)
    (h : d.addCovariance i i value = some e) :
    e.getVariance (e.getIndex i) = value ∧ e.getNCov = d.getNCov + 1 ∧
    (∀ j : Int, e.getData j = d.getData j ∧ e.getRadius j = d.getRadius j ∧
      e.getCosAngle j = d.getCosAngle j) ∧
    e._index = d._index ∧ e.getNData = d.getNData ∧
    (∀ k : Int, e.getIndex k = d.getIndex k) ∧
    (∀ k : Int, 0 ≤ k → k < d.getNData → k ≠ i →
      e.getVariance (e.getIndex k) = d.getVariance (d.getIndex k)) := by
  have hd := LyaData.Reachable.inv M d hr
  obtain ⟨hi0, hi1, -, -, hflag, hrec⟩ := (LyaData.addCovariance_eq_some_iff d e i i value).1 h
  have hin : i.toNat < d._index.length := (Int.toNat_lt hi0).2 hi1
  have hmem : vget d._index i 0 ∈ d._index := getD_mem _ _ _ hin
  have hii0 : 0 ≤ vget d._index i 0 := hd.index_nonneg _ hmem
  have hii1 : vget d._index i 0 < (d._cov.length : Int) := by
    rw [hd.size_cov, Int.toNat_of_nonneg (le_trans hii0 (hd.index_lt _ hmem).le)]
    exact hd.index_lt _ hmem
  subst hrec
  refine ⟨vget_vset_self _ _ _ _ hii0 hii1, ?_, fun j => ⟨rfl, rfl, rfl⟩, rfl, rfl,
    fun k => rfl, ?_⟩
  · simp only [LyaData.getNCov, vset]
    rw [count_set_true _ _ (by rw [hd.size_hasCov]; exact hin) hflag]
    push_cast
    rfl
  · intro k hk0 hk hne
    have hkn : k.toNat < d._index.length := (Int.toNat_lt hk0).2 hk
    have hkm : vget d._index k 0 ∈ d._index := getD_mem _ _ _ hkn
    have hdiff : vget d._index i 0 ≠ vget d._index k 0 := by
      intro hcon
      apply hne
      simp only [vget, List.getD_eq_getElem _ _ hin, List.getD_eq_getElem _ _ hkn] at hcon
      have := (List.Nodup.getElem_inj_iff hd.index_nodup).1 hcon
      rw [← Int.toNat_of_nonneg hk0, ← Int.toNat_of_nonneg hi0, this]
    have hne2 : (vget d._index i 0).toNat ≠ (vget d._index k 0).toNat := by
      intro hcon
      apply hdiff
      rw [← Int.toNat_of_nonneg hii0, ← Int.toNat_of_nonneg (hd.index_nonneg _ hkm), hcon]
    exact vget_vset_ne _ _ _ _ _ hne2

/-- Setting the variance of the one active bin of the scenario dataset to `4` stores `4` and
makes `getNCov()` equal to `1`. -/
theorem LyaData.addCovariance_frame_witness :
    LyaData.Reachable ⟨Real.exp, Real.sqrt, Real.rpow, Real.arctan⟩
      (exampleFilled ⟨Real.exp, Real.sqrt, Real.rpow, Real.arctan⟩ ⟨fun z => z, fun _ => 1⟩) ∧
    (exampleFilled ⟨Real.exp, Real.sqrt, Real.rpow, Real.arctan⟩
      ⟨fun z => z, fun _ => 1⟩).addCovariance 0 0 4 =
      some (exampleComplete ⟨Real.exp, Real.sqrt, Real.rpow, Real.arctan⟩
        ⟨fun z => z, fun _ => 1⟩) ∧
    (exampleComplete ⟨Real.exp, Real.sqrt, Real.rpow, Real.arctan⟩
      ⟨fun z => z, fun _ => 1⟩).getVariance
        ((exampleComplete ⟨Real.exp, Real.sqrt, Real.rpow, Real.arctan⟩
          ⟨fun z => z, fun _ => 1⟩).getIndex 0) = 4 ∧
    (exampleComplete ⟨Real.exp, Real.sqrt, Real.rpow, Real.arctan⟩
        ⟨fun z => z, fun _ => 1⟩).getNCov =
      (exampleFilled ⟨Real.exp, Real.sqrt, Real.rpow, Real.arctan⟩
        ⟨fun z => z, fun _ => 1⟩).getNCov + 1 :=
  ⟨exampleFilled_reachable _ _, exampleFilled_addCovariance _ _,
    (LyaData.addCovariance_frame ⟨Real.exp, Real.sqrt, Real.rpow, Real.arctan⟩ _ _
      (exampleFilled_reachable _ _) 0 4 (exampleFilled_addCovariance _ _)).1,
    (LyaData.addCovariance_frame ⟨Real.exp, Real.sqrt, Real.rpow, Real.arctan⟩ _ _
      (exampleFilled_reachable _ ⟨fun z => z, fun _ => 1⟩) 0 4
      (exampleFilled_addCovariance _ _)).2.1⟩

/-! ### Repeated evaluations of the likelihood -/

omit [FloorRing K] in
theorem LyaBaoLikelihood.body_tables (M : CMath K) (data : LyaData K) (params : List K)
    (st st2 : K × LyaBaoModel K) (k : Nat)
    (h : LyaBaoLikelihood.body M data params st k = some st2) :
    st2.2._zref = st.2._zref ∧ st2.2._fid.xi = st.2._fid.xi ∧ st2.2._nw.xi = st.2._nw.xi := by
  unfold LyaBaoLikelihood.body at h
  cases hz : data.getRedshift (data.getIndex k) with
  | none => simp [hz] at h
  | some z =>
    simp only [hz, bind, Option.bind, Option.some.injEq] at h
    subst h
    exact ⟨rfl, rfl, rfl⟩

omit [FloorRing K] in
theorem LyaBaoLikelihood.foldlM_tables (M : CMath K) (data : LyaData K) (params : List K)
    (ks : List Nat) :
    ∀ st st2 : K × LyaBaoModel K,
      ks.foldlM (LyaBaoLikelihood.body M data params) st = some st2 →
      st2.2._zref = st.2._zref ∧ st2.2._fid.xi = st.2._fid.xi ∧
        st2.2._nw.xi = st.2._nw.xi := by
  induction ks with
  | nil =>
    intro st st2 h
    simp only [List.foldlM_nil, pure, Option.some.injEq] at h
    subst h
    exact ⟨rfl, rfl, rfl⟩
  | cons k ks ih =>
    intro st st2 h
    rw [List.foldlM_cons] at h
    cases hb : LyaBaoLikelihood.body M data params st k with
    | none => simp [hb, bind] at h
    | some st1 =>
      simp only [hb, bind, Option.bind] at h
      obtain ⟨g1, g2, g3⟩ := LyaBaoLikelihood.body_tables M data params st st1 k hb
      obtain ⟨f1, f2, f3⟩ := ih st1 st2 h
      exact ⟨f1.trans g1, f2.trans g2, f3.trans g3⟩

omit [FloorRing K] in
/-- The value and the object that `operator()` returns on a consistent dataset, computed with
any model `m0` that has the tables of the model of `L`. -/
theorem LyaBaoLikelihood.call_eq (M : CMath K) (L : LyaBaoLikelihood K) (hinv : L._data.Inv)
    (params : List K) (m0 : LyaBaoModel K) (h1 : L._model._zref = m0._zref)
    (h2 : L._model._fid.xi = m0._fid.xi) (h3 : L._model._nw.xi = m0._nw.xi) :
    ∃ m2 : LyaBaoModel K, m2._zref = m0._zref ∧ m2._fid.xi = m0._fid.xi ∧
      m2._nw.xi = m0._nw.xi ∧
      L.call M params =
        some (0.5 * ((List.range L._data.getNData.toNat).map fun k : Nat =>
          (L._data.getData (L._data.getIndex k) -
            (m0.evaluate M (L._data.getRadius (L._data.getIndex k))
              (L._data.getCosAngle (L._data.getIndex k))
              ((L._data.getRedshift (L._data.getIndex k)).getD 0) params).1) ^ 2 /
            L._data.getVariance (L._data.getIndex k)).sum, { L with _model := m2 }) := by
  have hz : ∀ k ∈ List.range L._data.getNData.toNat,
      L._data.getRedshift (L._data.getIndex k) =
        some ((L._data.getRedshift (L._data.getIndex k)).getD 0) := by
    intro k hk
    have hk2 : k < L._data._index.length := by simpa [LyaData.getNData] using hk
    obtain ⟨z, hz⟩ := LyaData.getRedshift_isSome L._data hinv k hk2
    simp [hz]
  obtain ⟨m2, hm2⟩ := LyaBaoLikelihood.foldlM_body M L._data params m0
    (fun k => (L._data.getRedshift (L._data.getIndex k)).getD 0) _ hz 0 L._model h1 h2 h3
  obtain ⟨g1, g2, g3⟩ := LyaBaoLikelihood.foldlM_tables M L._data params _ _ _ hm2
  refine ⟨m2, g1.trans h1, g2.trans h2, g3.trans h3, ?_⟩
  simp only [LyaBaoLikelihood.call, hm2, bind, Option.bind, zero_add]

omit [FloorRing K] in
theorem LyaBaoLikelihood.call_fst_congr (M : CMath K) (L L2 : LyaBaoLikelihood K)
    (hinv : L._data.Inv) (params : List K) (hdata : L2._data = L._data)
    (h1 : L2._model._zref = L._model._zref) (h2 : L2._model._fid.xi = L._model._fid.xi)
    (h3 : L2._model._nw.xi = L._model._nw.xi) :
    (L2.call M params).map Prod.fst = (L.call M params).map Prod.fst := by
  obtain ⟨m2, -, -, -, hc⟩ := LyaBaoLikelihood.call_eq M L hinv params L._model rfl rfl rfl
  obtain ⟨m3, -, -, -, hc2⟩ := LyaBaoLikelihood.call_eq M L2 (by rw [hdata]; exact hinv) params
    L._model h1 h2 h3
  rw [hc, hc2, hdata]
  rfl

omit [FloorRing K] in
theorem LyaBaoLikelihood.foldlM_call (M : CMath K) (L : LyaBaoLikelihood K)
    (hinv : L._data.Inv) (qs : List (List K)) :
    ∀ L2 : LyaBaoLikelihood K, L2._data = L._data → L2._params = L._params →
      L2._model._zref = L._model._zref → L2._model._fid.xi = L._model._fid.xi →
      L2._model._nw.xi = L._model._nw.xi →
      ∃ L3 : LyaBaoLikelihood K,
        qs.foldlM (fun (acc : LyaBaoLikelihood K) q => (acc.call M q).map Prod.snd) L2 =
          some L3 ∧
        L3._data = L._data ∧ L3._params = L._params ∧ L3._model._zref = L._model._zref ∧
        L3._model._fid.xi = L._model._fid.xi ∧ L3._model._nw.xi = L._model._nw.xi := by
  induction qs with
  | nil =>
    intro L2 h0 hp h1 h2 h3
    exact ⟨L2, rfl, h0, hp, h1, h2, h3⟩
  | cons q qs ih =>
    intro L2 h0 hp h1 h2 h3
    obtain ⟨m2, g1, g2, g3, hc⟩ := LyaBaoLikelihood.call_eq M L2 (by rw [h0]; exact hinv) q
      L._model h1 h2 h3
    obtain ⟨L3, hL3, r0, rp, r1, r2, r3⟩ := ih { L2 with _model := m2 } h0 hp g1 g2 g3
    refine ⟨L3, ?_, r0, rp, r1, r2, r3⟩
    rw [List.foldlM_cons, hc]
    exact hL3

/-- C16: on a dataset the program can build, the value of `operator()(p)` does not depend on
the distortion left in the two models (two likelihood objects with the same dataset and the
same tables return the same value), the call returns an object with the same dataset, the same
parameters and the same tables, and evaluating `p` after any sequence of evaluations at other
vectors returns the value that evaluating `p` first returns. -/
theorem LyaBaoLikelihood.call_deterministic (M : CMath K) (L : LyaBaoLikelihood K)
    (hd : LyaData.Reachable M L._data) (params : List K) :
    (∀ L2 : LyaBaoLikelihood K, L2._data = L._data → L2._model._zref = L._model._zref →
      L2._model._fid.xi = L._model._fid.xi → L2._model._nw.xi = L._model._nw.xi →
      (L2.call M params).map Prod.fst = (L.call M params).map Prod.fst) ∧
    (∃ (v : K) (L3 : LyaBaoLikelihood K), L.call M params = some (v, L3) ∧
      L3._data = L._data ∧ L3._params = L._params ∧ L3._model._zref = L._model._zref ∧
      L3._model._fid.xi = L._model._fid.xi ∧ L3._model._nw.xi = L._model._nw.xi) ∧
    (∀ qs : List (List K), ∃ L4 : LyaBaoLikelihood K,
      qs.foldlM (fun (acc : LyaBaoLikelihood K) q => (acc.call M q).map Prod.snd) L =
        some L4 ∧
      L4._data = L._data ∧
      (L4.call M params).map Prod.fst = (L.call M params).map Prod.fst) := by
  have hinv := LyaData.Reachable.inv M L._data hd
  refine ⟨?_, ?_, ?_⟩
  · intro L2 h0 h1 h2 h3
    exact LyaBaoLikelihood.call_fst_congr M L L2 hinv params h0 h1 h2 h3
  · obtain ⟨m2, g1, g2, g3, hc⟩ := LyaBaoLikelihood.call_eq M L hinv params L._model rfl rfl rfl
    exact ⟨_, _, hc, rfl, rfl, g1, g2, g3⟩
  · intro qs
    obtain ⟨L4, hL4, r0, -, r1, r2, r3⟩ :=
      LyaBaoLikelihood.foldlM_call M L hinv qs L rfl rfl rfl rfl rfl
    exact ⟨L4, hL4, r0, LyaBaoLikelihood.call_fst_congr M L L4 hinv params r0 r1 r2 r3⟩

/-- Evaluating at a vector after the scenario likelihood was left with distortion `7` in both
models gives the value of the likelihood left with distortion `0`. -/
theorem LyaBaoLikelihood.call_deterministic_witness :
    LyaData.Reachable ⟨Real.exp, Real.sqrt, Real.rpow, Real.arctan⟩
      (LyaBaoLikelihood.new
        (exampleComplete ⟨Real.exp, Real.sqrt, Real.rpow, Real.arctan⟩ ⟨fun z => z, fun _ => 1⟩)
        ⟨9 / 4, ⟨fun b r mu => b + r * mu, 0⟩, ⟨fun b r mu => b * r + mu, 0⟩⟩)._data ∧
    ((LyaBaoLikelihood.new
        (exampleComplete ⟨Real.exp, Real.sqrt, Real.rpow, Real.arctan⟩ ⟨fun z => z, fun _ => 1⟩)
        ⟨9 / 4, ⟨fun b r mu => b + r * mu, 7⟩, ⟨fun b r mu => b * r + mu, 7⟩⟩).call
      ⟨Real.exp, Real.sqrt, Real.rpow, Real.arctan⟩ [4, 0.2, 0.8, 1, 1]).map Prod.fst =
    ((LyaBaoLikelihood.new
        (exampleComplete ⟨Real.exp, Real.sqrt, Real.rpow, Real.arctan⟩ ⟨fun z => z, fun _ => 1⟩)
        ⟨9 / 4, ⟨fun b r mu => b + r * mu, 0⟩, ⟨fun b r mu => b * r + mu, 0⟩⟩).call
      ⟨Real.exp, Real.sqrt, Real.rpow, Real.arctan⟩ [4, 0.2, 0.8, 1, 1]).map Prod.fst :=
  ⟨exampleComplete_reachable _ _,
    (LyaBaoLikelihood.call_deterministic ⟨Real.exp, Real.sqrt, Real.rpow, Real.arctan⟩
      (LyaBaoLikelihood.new
        (exampleComplete ⟨Real.exp, Real.sqrt, Real.rpow, Real.arctan⟩ ⟨fun z => z, fun _ => 1⟩)
        ⟨9 / 4, ⟨fun b r mu => b + r * mu, 0⟩, ⟨fun b r mu => b * r + mu, 0⟩⟩)
      (exampleComplete_reachable _ _) [4, 0.2, 0.8, 1, 1]).1
      (LyaBaoLikelihood.new
        (exampleComplete ⟨Real.exp, Real.sqrt, Real.rpow, Real.arctan⟩ ⟨fun z => z, fun _ => 1⟩)
        ⟨9 / 4, ⟨fun b r mu => b + r * mu, 7⟩, ⟨fun b r mu => b * r + mu, 7⟩⟩)
      rfl rfl rfl rfl⟩

/-! ### Exporting the parameters -/

omit [FloorRing K] in
theorem LyaBaoLikelihood.foldl_calls (ps : List (Parameter K)) :
    ∀ st : List (StateCall K),
      ps.foldl (fun st param =>
        if param.isFloating then
          st ++ [StateCall.Add param.getName param.getValue (0.1 * param.getValue)]
        else
          (st ++ [StateCall.Add param.getName param.getValue 0]) ++
            [StateCall.Fix param.getName]) st =
      st ++ ps.flatMap fun q =>
        if q.isFloating then [StateCall.Add q.getName q.getValue (0.1 * q.getValue)]
        else [StateCall.Add q.getName q.getValue 0, StateCall.Fix q.getName] := by
  induction ps with
  | nil => intro st; simp
  | cons q ps ih =>
    intro st
    rw [List.foldl_cons, ih, List.flatMap_cons]
    cases hq : q.isFloating <;> simp

omit [FloorRing K] in
/-- C17: `initialize` appends to the state, for each parameter in the order of `_params`,
`Add(name, value, 0.1·value)` when the parameter is floating and `Add(name, value, 0)` followed
by `Fix(name)` when it is not. For a freshly constructed likelihood the state receives the five
calls `Add(Alpha, 4.0, 0.4)`, `Add(Bias, 0.2, 0.02)`, `Add(Beta, 0.8, 0.08)`,
`Add(BAO Ampl, 1, 0.1)`, `Add(BAO Scale, 1, 0.1)` and no `Fix`, `getNPar()` is `5`, and the
order of the names is the order in which `evaluate` reads `p[0..4]` as alpha, bias, beta,
ampl, scale. -/
theorem LyaBaoLikelihood.initialize_calls (M : CMath K) (L : LyaBaoLikelihood K)
    (st : List (StateCall K)) (data : LyaData K) (model : LyaBaoModel K) :
    LyaBaoLikelihood.initialize L st =
      st ++ L._params.flatMap (fun q =>
        if q.isFloating then [StateCall.Add q.getName q.getValue (0.1 * q.getValue)]
        else [StateCall.Add q.getName q.getValue 0, StateCall.Fix q.getName]) ∧
    LyaBaoLikelihood.initialize (LyaBaoLikelihood.new data model) [] =
      [StateCall.Add "Alpha" 4.0 0.4, StateCall.Add "Bias" 0.2 0.02,
        StateCall.Add "Beta" 0.8 0.08, StateCall.Add "BAO Ampl" 1 0.1,
        StateCall.Add "BAO Scale" 1 0.1] ∧
    (LyaBaoLikelihood.new data model).getNPar = 5 ∧
    (LyaBaoLikelihood.new data model)._params.map Parameter.getName =
      ["Alpha", "Bias", "Beta", "BAO Ampl", "BAO Scale"] ∧
    (∀ q ∈ (LyaBaoLikelihood.new data model)._params, q.isFloating = true) ∧
    ∀ r mu z alpha bias beta ampl scale : K,
      (model.evaluate M r mu z [alpha, bias, beta, ampl, scale]).1 =
        bias * bias * M.pow ((1 + z) / (1 + model._zref)) alpha *
          (ampl * (model._fid.xi beta (r * scale) mu - model._nw.xi beta (r * scale) mu) +
            model._nw.xi beta (r * scale) mu) := by
  refine ⟨LyaBaoLikelihood.foldl_calls L._params st, ?_, rfl, rfl, ?_, ?_⟩
  · rw [ LyaBaoLikelihood.initialize, LyaBaoLikelihood.foldl_calls]
    simp only [LyaBaoLikelihood.new, Parameter.new, Parameter.isFloating, Parameter.getName,
      Parameter.getValue, List.flatMap_cons, List.flatMap_nil, if_true, List.nil_append,
      List.cons_append, List.append_nil]
    norm_num
  · intro q hq
    simp only [LyaBaoLikelihood.new, Parameter.new, List.mem_cons, List.mem_singleton,
      List.not_mem_nil, or_false] at hq
    rcases hq with h | h | h | h | h <;> subst h <;> rfl
  · intro r mu z alpha bias beta ampl scale
    rfl

/-! ### Reading the `.params` file -/

/-- A line that `regex_match` matches against `paramPattern` and whose second number, as
`lexical_cast` reads it, is not `0` ends a pass through the body of the loop with the
`RuntimeError` `Got unexpected non-zero token.`: no dataset is returned for the next line,
whatever `addData` would have done. -/
theorem paramsLine_nonzero_sentinel (M : CMath K)
    (regex_match : String → String → Option (List String))
    (lexical_cast : String → Option K) (data : LyaData K) (lineNumber : Nat) (line : String)
    (what : List String) (token : List K)
    (hmatch : regex_match line paramPattern = some what)
    (hcast : (List.range 5).mapM (fun tok => lexical_cast (what.getD (tok + 1) "")) =
      some token)
    (hne : vget token 1 0 ≠ 0) :
    paramsLine M regex_match lexical_cast data lineNumber line =
        LineResult.runtimeError "Got unexpected non-zero token." ∧
      ∀ next : LyaData K,
        paramsLine M regex_match lexical_cast data lineNumber line ≠ LineResult.ok next := by
  have h : paramsLine M regex_match lexical_cast data lineNumber line =
      LineResult.runtimeError "Got unexpected non-zero token." := by
    simp only [paramsLine, hmatch, hcast]
    rw [if_pos (Ne.symm hne)]
  refine ⟨h, ?_⟩
  intro next hcon
  rw [h] at hcon
  exact LineResult.noConfusion hcon

theorem parseDecimal_examples :
    parseDecimal "1.0" = some (false, 10, -1) ∧ parseDecimal "0.1" = some (false, 1, -1) ∧
      parseDecimal "2.0" = some (false, 20, -1) := by
  decide

set_option maxRecDepth 100000 in
theorem matchParamsLine_example :
    boostRegexMatch "1.0 0.1 | Lya covariance 3D (0.1,1.0,2.0)" paramPattern =
      some ["1.0 0.1 | Lya covariance 3D (0.1,1.0,2.0)", "1.0", "0.1", "0.1", "1.0", "2.0"] := by
  decide

omit [FloorRing K] in
theorem lexicalCastDouble_examples :
    (lexicalCastDouble "1.0" : Option K) = some 1 ∧
      (lexicalCastDouble "0.1" : Option K) = some (1 / 10) ∧
      (lexicalCastDouble "2.0" : Option K) = some 2 := by
  obtain ⟨h1, h2, h3⟩ := parseDecimal_examples
  refine ⟨?_, ?_, ?_⟩
  · simp only [lexicalCastDouble, h1]; norm_num
  · simp only [lexicalCastDouble, h2]; norm_num
  · simp only [lexicalCastDouble, h3]; norm_num

theorem paramsLine_example :
    paramsLine ⟨Real.exp, Real.sqrt, Real.rpow, Real.arctan⟩ boostRegexMatch lexicalCastDouble
      (exampleEmpty ⟨Real.exp, Real.sqrt, Real.rpow, Real.arctan⟩ ⟨fun z => z, fun _ => 1⟩) 1
      "1.0 0.1 | Lya covariance 3D (0.1,1.0,2.0)" =
        LineResult.runtimeError "Got unexpected non-zero token." := by
  have hcast : (List.range 5).mapM (fun tok => (lexicalCastDouble
      (["1.0 0.1 | Lya covariance 3D (0.1,1.0,2.0)", "1.0", "0.1", "0.1", "1.0", "2.0"].getD
        (tok + 1) "") : Option ℝ)) = some [1, 1 / 10, 1 / 10, 1, 2] := by
    obtain ⟨h1, h2, h3⟩ := lexicalCastDouble_examples (K := ℝ)
    have hr : List.range 5 = [0, 1, 2, 3, 4] := by decide
    rw [hr]
    simp only [List.mapM_cons, List.mapM_nil, List.getD_cons_succ, List.getD_cons_zero,
      zero_add, Nat.reduceAdd, h1, h2, h3, bind, Option.bind, pure]
  have hne : vget [(1 : ℝ), 1 / 10, 1 / 10, 1, 2] 1 0 ≠ 0 := by
    norm_num [vget]
  exact (paramsLine_nonzero_sentinel ⟨Real.exp, Real.sqrt, Real.rpow, Real.arctan⟩
    boostRegexMatch lexicalCastDouble _ 1 _ _ _ matchParamsLine_example hcast hne).1

theorem IfStream.getline_rest_length (s : IfStream) (h : s.getline.1.eof = false) :
    s.getline.1.rest.length < s.rest.length := by
  unfold IfStream.getline at h ⊢
  have hlen := (List.dropWhile_sublist (l := s.rest) (fun c => c != Char.ofNat 10)).length_le
  rw [List.span_eq_take_drop] at h ⊢
  cases hd : List.dropWhile (fun c => c != Char.ofNat 10) s.rest with
  | nil => rw [hd] at h; simp [IfStream.eof] at h
  | cons c r =>
    rw [hd] at hlen
    simp only [List.length_cons] at hlen
    simp only
    omega

theorem paramsLoop_fuel (M : CMath K) (regex_match : String → String → Option (List String))
    (lexical_cast : String → Option K) :
    ∀ (n m : Nat) (s : IfStream) (data : LyaData K) (lineNumber : Nat),
      s.rest.length < n → s.rest.length < m →
      paramsLoop M regex_match lexical_cast n s data lineNumber =
        paramsLoop M regex_match lexical_cast m s data lineNumber := by
  intro n
  induction n with
  | zero => intro m s data lineNumber h; omega
  | succ n ih =>
    intro m s data lineNumber hn hm
    cases m with
    | zero => omega
    | succ m =>
      simp only [paramsLoop]
      split_ifs with h1 h2 h3
      · rfl
      · rfl
      · have hlt := IfStream.getline_rest_length s (by simpa using h2)
        cases paramsLine M regex_match lexical_cast data (lineNumber + 1) s.getline.2 with
        | ok next => exact ih m _ next (lineNumber + 1) (by omega) (by omega)
        | runtimeError message => rfl
        | abort => rfl
      · rfl

theorem IfStream.getline_no_line_feed (cs : List Char) :
    (IfStream.getline ⟨cs.filter (fun c => c != Char.ofNat 10), false, false⟩).1.eof = true := by
  have h : List.dropWhile (fun c => c != Char.ofNat 10)
      (cs.filter (fun c => c != Char.ofNat 10)) = [] := by
    rw [List.dropWhile_eq_nil_iff]
    intro c hc
    exact (List.mem_filter.1 hc).2
  unfold IfStream.getline
  rw [List.span_eq_take_drop, h]
  rfl

theorem paramsLoop_break (M : CMath K) (regex_match : String → String → Option (List String))
    (lexical_cast : String → Option K) (fuel : Nat) (rest : List Char) (data : LyaData K)
    (lineNumber : Nat) (h : (IfStream.getline ⟨rest, false, false⟩).1.eof = true) :
    paramsLoop M regex_match lexical_cast (fuel + 1) ⟨rest, false, false⟩ data lineNumber =
      LineResult.ok data := by
  have hc : ((⟨rest, false, false⟩ : IfStream).good &&
      !(⟨rest, false, false⟩ : IfStream).eof) = true := rfl
  rw [paramsLoop, if_pos hc]
  simp only
  rw [if_pos h]

theorem paramsLoop_throw (M : CMath K) (regex_match : String → String → Option (List String))
    (lexical_cast : String → Option K) (fuel : Nat) (rest : List Char) (data : LyaData K)
    (lineNumber : Nat) (s1 : IfStream) (line message : String)
    (hg : IfStream.getline ⟨rest, false, false⟩ = (s1, line)) (he : s1.eofbit = false)
    (hf : s1.failbit = false)
    (hl : paramsLine M regex_match lexical_cast data (lineNumber + 1) line =
      LineResult.runtimeError message) :
    paramsLoop M regex_match lexical_cast (fuel + 1) ⟨rest, false, false⟩ data lineNumber =
      LineResult.runtimeError message := by
  have hc : ((⟨rest, false, false⟩ : IfStream).good &&
      !(⟨rest, false, false⟩ : IfStream).eof) = true := rfl
  rw [paramsLoop, if_pos hc]
  simp only [hg]
  rw [if_neg (by simp [IfStream.eof, he]), if_neg (by simp [IfStream.good, he, hf]), hl]

/-- C20: the loop of `main` over the `.params` file does not reject the line
`1.0 0.1 | Lya covariance 3D (0.1,1.0,2.0)` when it is the last line of the file and no line feed
ends it. With the line feed the loop ends with the `RuntimeError`
`Got unexpected non-zero token.`; without it `std::getline` sets `eofbit`, the loop ends at
`if(paramsIn.eof()) break;` and leaves the dataset it started with, and nothing is thrown. The
same happens to every text without a line feed, whatever `regex_match` and `lexical_cast` do. -/
theorem readParams_unterminated_line :
    readParams ⟨Real.exp, Real.sqrt, Real.rpow, Real.arctan⟩ boostRegexMatch lexicalCastDouble
      (exampleEmpty ⟨Real.exp, Real.sqrt, Real.rpow, Real.arctan⟩ ⟨fun z => z, fun _ => 1⟩)
      "1.0 0.1 | Lya covariance 3D (0.1,1.0,2.0)\n" =
        LineResult.runtimeError "Got unexpected non-zero token." ∧
    readParams ⟨Real.exp, Real.sqrt, Real.rpow, Real.arctan⟩ boostRegexMatch lexicalCastDouble
      (exampleEmpty ⟨Real.exp, Real.sqrt, Real.rpow, Real.arctan⟩ ⟨fun z => z, fun _ => 1⟩)
      "1.0 0.1 | Lya covariance 3D (0.1,1.0,2.0)" =
        LineResult.ok
          (exampleEmpty ⟨Real.exp, Real.sqrt, Real.rpow, Real.arctan⟩ ⟨fun z => z, fun _ => 1⟩) ∧
    ∀ (M : CMath K) (regex_match : String → String → Option (List String))
      (lexical_cast : String → Option K) (data : LyaData K) (cs : List Char),
      readParams M regex_match lexical_cast data
        (String.mk (cs.filter (fun c => c != Char.ofNat 10))) = LineResult.ok data := by
  refine ⟨?_, ?_, ?_⟩
  · exact paramsLoop_throw _ _ _ _ _ _ 0 ⟨[], false, false⟩
      "1.0 0.1 | Lya covariance 3D (0.1,1.0,2.0)" _ (by decide) rfl rfl paramsLine_example
  · exact paramsLoop_break _ _ _ _ _ _ 0 (by decide)
  · intro M regex_match lexical_cast data cs
    exact paramsLoop_break _ _ _ _ _ _ 0 (IfStream.getline_no_line_feed cs)

/-! ### Parameters and oversampling -/

omit [LinearOrderedField K] [FloorRing K] in
/-- C18: `fix(v)` leaves `getValue() == v` and `isFloating() == false`; `setValue(v)` leaves
`getValue() == v` and `isFloating()` as it was; neither changes `getName()`. -/
theorem Parameter.fix_setValue_frame (q : Parameter K) (v : K) :
    (q.fix v).getValue = v ∧ (q.fix v).isFloating = false ∧
    (q.setValue v).getValue = v ∧ (q.setValue v).isFloating = q.isFloating ∧
    (q.fix v).getName = q.getName ∧ (q.setValue v).getName = q.getName :=
  ⟨rfl, rfl, rfl, rfl, rfl, rfl⟩

omit [FloorRing K] in
/-- With exact arithmetic and unbounded integers, for a constructed `Binning` and `factor > 0`,
`oversampleBinning` succeeds and returns a binning with `nBins·factor` bins, the same `lowEdge`
and `binSize/factor`, whose upper edge `lowEdge + nBins·binSize` is the one of the original;
for `factor ≤ 0` the assertion fails. -/
theorem oversampleBinning_exact_spec (nBins : Int) (lowEdge binSize : K) (b : Binning K)
    (hb : Binning.new nBins lowEdge binSize = some b) (factor : Int) :
    (0 < factor → ∃ o : Binning K, oversampleBinning b factor = some o ∧
      o.getNBins = nBins * factor ∧ o.getLowEdge = lowEdge ∧
      o.getBinSize = binSize / (factor : K) ∧
      o.getLowEdge + (o.getNBins : K) * o.getBinSize = lowEdge + (nBins : K) * binSize) ∧
    (factor ≤ 0 → oversampleBinning b factor = none) := by
  obtain ⟨hn, hs, rfl⟩ := Binning.new_eq_some hb
  constructor
  · intro hf
    have hfK : (0 : K) < (factor : K) := by exact_mod_cast hf
    refine ⟨⟨nBins * factor, lowEdge, binSize / (factor : K)⟩, ?_, rfl, rfl, rfl, ?_⟩
    · simp only [oversampleBinning, Binning.new, Binning.getNBins, Binning.getLowEdge,
        Binning.getBinSize, gt_iff_lt]
      rw [if_pos hf, if_pos ⟨mul_pos hn hf, div_pos hs hfK⟩]
    · simp only [Binning.getNBins, Binning.getLowEdge, Binning.getBinSize]
      push_cast
      field_simp
      ring
  · intro hf
    simp only [oversampleBinning, gt_iff_lt]
    rw [if_neg (not_lt.2 hf)]

/-! ### Values outside the range of a binning -/

/-- C21: the code does not do what the comment above `getBinIndex` says. For the binning
`(2, 0, 1)` the values `5/2` and `-1/2` lie outside the range and `getBinIndex` fails its
assertion instead of returning `-1`; and `getBinIndex` returns `-1` for no binning and no
value. -/
theorem Binning.getBinIndex_never_minus_one :
    (⟨2, 0, 1⟩ : Binning ℚ).getBinIndex (5 / 2) = none ∧
    (⟨2, 0, 1⟩ : Binning ℚ).getBinIndex (-1 / 2) = none ∧
    ∀ (b : Binning K) (value : K), b.getBinIndex value ≠ some (-1) := by
  refine ⟨?_, ?_, ?_⟩
  · have h : ⌊((5 / 2 : ℚ) - 0) / 1⌋ = 2 := by
      rw [Int.floor_eq_iff]; constructor <;> norm_num
    rw [Option.eq_none_iff_forall_not_mem]
    intro i hi
    obtain ⟨h1, h2, h3⟩ := (Binning.getBinIndex_eq_some _ _ _).1 (Option.mem_def.1 hi)
    simp only at h1 h3
    rw [h] at h1
    omega
  · have h : ⌊((-1 / 2 : ℚ) - 0) / 1⌋ = -1 := by
      rw [Int.floor_eq_iff]; constructor <;> norm_num
    rw [Option.eq_none_iff_forall_not_mem]
    intro i hi
    obtain ⟨h1, h2, h3⟩ := (Binning.getBinIndex_eq_some _ _ _).1 (Option.mem_def.1 hi)
    simp only at h1 h3
    rw [h] at h1
    omega
  · intro b value h
    obtain ⟨-, h0, -⟩ := (Binning.getBinIndex_eq_some b value (-1)).1 h
    omega

/-! ### Oversampling refines a binning -/

omit [FloorRing K] in
/-- The conditions under which the constructor of `BaryonPerturbations` throws nothing. -/
theorem BaryonPerturbations.new_ok (M : CMath K) (log : K → K)
    (omegaMatter omegaBaryon hubbleConstant cmbTemperature : K) (bp : BaryonPerturbations K)
    (h : BaryonPerturbations.new M log omegaMatter omegaBaryon hubbleConstant cmbTemperature =
      Except.ok bp) :
    0 ≤ omegaMatter ∧ 0 ≤ omegaBaryon ∧ omegaBaryon ≤ omegaMatter ∧ 0 < hubbleConstant ∧
      2.7 ≤ cmbTemperature ∧ cmbTemperature ≤ 2.8 := by
  unfold BaryonPerturbations.new at h
  split_ifs at h with h1 h2 h3 h4
  push_neg at h2 h4
  exact ⟨not_lt.1 h1, h2.1, h2.2, not_le.1 h3, h4.1, h4.2⟩

/-- C22: the constructor does not reject `omegaMatter = 0`. With `omegaMatter = 0`,
`omegaBaryon = 0`, `hubbleConstant = 0.7` and `cmbTemperature = 2.725` none of its four checks
throws, and it goes on to divide `omegaBaryon` by an `omegaMatter` that is zero. -/
theorem BaryonPerturbations.new_zero_omegaMatter :
    ∃ bp : BaryonPerturbations ℝ,
      BaryonPerturbations.new ⟨Real.exp, Real.sqrt, Real.rpow, Real.arctan⟩ Real.log
        0 0 0.7 2.725 = Except.ok bp ∧
      bp._omegaMatter = 0 ∧ bp._omegaBaryon = 0 := by
  unfold BaryonPerturbations.new
  rw [if_neg (by norm_num), if_neg (by norm_num), if_neg (by norm_num), if_neg (by norm_num)]
  exact ⟨_, rfl, rfl, rfl⟩

/-! ### The local variables of `transform` -/

omit [FloorRing K] in
theorem LyaData.transform_eq_locals (M : CMath K) (d : LyaData K) (ll sep z ds : K) :
    d.transform M ll sep z ds =
      (M.sqrt (LyaData.transform_drLos M d ll z * LyaData.transform_drLos M d ll z +
          d._cosmology.getTransverseComovingScale z *
              (LyaData.transform_swgt sep ds * d._arcminToRad) *
            (d._cosmology.getTransverseComovingScale z *
              (LyaData.transform_swgt sep ds * d._arcminToRad))),
        |LyaData.transform_drLos M d ll z| /
          M.sqrt (LyaData.transform_drLos M d ll z * LyaData.transform_drLos M d ll z +
            d._cosmology.getTransverseComovingScale z *
                (LyaData.transform_swgt sep ds * d._arcminToRad) *
              (d._cosmology.getTransverseComovingScale z *
                (LyaData.transform_swgt sep ds * d._arcminToRad)))) :=
  rfl

/-- C23: for `sep ≠ 0` and `ds ≠ 0`, with `smin = sep - ds/2` and `smax = sep + ds/2`, the
quotient of the integral of `s²` by the integral of `s` over `[smin, smax]` is
`((smax³ - smin³)/3) / ((smax² - smin²)/2)`, which is `sep + ds²/(12·sep)`, which is the `swgt`
that `transform` multiplies the transverse scale by. -/
theorem LyaData.transform_swgt_weighted_mean (M : CMath ℝ) (d : LyaData ℝ) (ll sep z ds : ℝ)
    (hsep : sep ≠ 0) (hds : ds ≠ 0) :
    (∫ s in (sep - ds / 2)..(sep + ds / 2), s ^ 2) / (∫ s in (sep - ds / 2)..(sep + ds / 2), s) =
      (((sep + ds / 2) ^ 3 - (sep - ds / 2) ^ 3) / 3) /
        (((sep + ds / 2) ^ 2 - (sep - ds / 2) ^ 2) / 2) ∧
    (((sep + ds / 2) ^ 3 - (sep - ds / 2) ^ 3) / 3) /
        (((sep + ds / 2) ^ 2 - (sep - ds / 2) ^ 2) / 2) = sep + ds ^ 2 / (12 * sep) ∧
    LyaData.transform_swgt sep ds = sep + ds ^ 2 / (12 * sep) ∧
    (d.transform M ll sep z ds).1 =
      M.sqrt (LyaData.transform_drLos M d ll z * LyaData.transform_drLos M d ll z +
        d._cosmology.getTransverseComovingScale z *
            ((∫ s in (sep - ds / 2)..(sep + ds / 2), s ^ 2) /
              (∫ s in (sep - ds / 2)..(sep + ds / 2), s) * d._arcminToRad) *
          (d._cosmology.getTransverseComovingScale z *
            ((∫ s in (sep - ds / 2)..(sep + ds / 2), s ^ 2) /
              (∫ s in (sep - ds / 2)..(sep + ds / 2), s) * d._arcminToRad))) := by
  have h1 : (∫ s in (sep - ds / 2)..(sep + ds / 2), s ^ 2) =
      ((sep + ds / 2) ^ 3 - (sep - ds / 2) ^ 3) / 3 := by
    rw [integral_pow]; norm_num
  have h2 : (∫ s in (sep - ds / 2)..(sep + ds / 2), s) =
      ((sep + ds / 2) ^ 2 - (sep - ds / 2) ^ 2) / 2 := integral_id
  have h3 : (((sep + ds / 2) ^ 3 - (sep - ds / 2) ^ 3) / 3) /
      (((sep + ds / 2) ^ 2 - (sep - ds / 2) ^ 2) / 2) = sep + ds ^ 2 / (12 * sep) := by
    have hden : ((sep + ds / 2) ^ 2 - (sep - ds / 2) ^ 2) / 2 = sep * ds := by ring
    rw [hden]
    field_simp
    ring
  have h4 : LyaData.transform_swgt sep ds = sep + ds ^ 2 / (12 * sep) := by
    unfold LyaData.transform_swgt
    field_simp
    ring
  refine ⟨by rw [h1, h2], h3, h4, ?_⟩
  rw [LyaData.transform_eq_locals, h1, h2, h3, h4]

/-- For `sep = 5` and `ds = 10` the weighted separation is `5 + 100/60`. -/
theorem LyaData.transform_swgt_weighted_mean_witness :
    (5 : ℝ) ≠ 0 ∧ (10 : ℝ) ≠ 0 ∧
    (∫ s in ((5 : ℝ) - 10 / 2)..(5 + 10 / 2), s ^ 2) / (∫ s in ((5 : ℝ) - 10 / 2)..(5 + 10 / 2), s) =
      ((((5 : ℝ) + 10 / 2) ^ 3 - (5 - 10 / 2) ^ 3) / 3) /
        (((5 + 10 / 2) ^ 2 - (5 - 10 / 2) ^ 2) / 2) ∧
    LyaData.transform_swgt (5 : ℝ) 10 = 5 + 10 ^ 2 / (12 * 5) :=
  ⟨by norm_num, by norm_num,
    (LyaData.transform_swgt_weighted_mean ⟨Real.exp, Real.sqrt, Real.rpow, Real.arctan⟩
      (exampleEmpty ⟨Real.exp, Real.sqrt, Real.rpow, Real.arctan⟩ ⟨fun z => z, fun _ => 1⟩)
      (1 / 2) 5 2 10 (by norm_num) (by norm_num)).1,
    (LyaData.transform_swgt_weighted_mean ⟨Real.exp, Real.sqrt, Real.rpow, Real.arctan⟩
      (exampleEmpty ⟨Real.exp, Real.sqrt, Real.rpow, Real.arctan⟩ ⟨fun z => z, fun _ => 1⟩)
      (1 / 2) 5 2 10 (by norm_num) (by norm_num)).2.2.1⟩

/-- C27: with `std::exp` the real exponential, `transform` returns the radius
`sqrt(drLos² + drPerp²)` and the cosine `|drLos| / sqrt(drLos² + drPerp²)` in which `drLos` is the
line-of-sight distance at `z2 = (z+1)·exp(ll/2) - 1` minus the one at `z1 = (z+1)/exp(ll/2) - 1`;
these two redshifts satisfy `(1+z1)(1+z2) = (1+z)²` and `1+z2 = exp(ll)·(1+z1)`; for `ll = 0`
both are `z`, so `drLos` is `0`, the radius `transform` returns is `sqrt(drPerp²)`, and the
cosine is `0` whenever the radius is not zero. -/
theorem LyaData.transform_redshifts_bracket (sqrt atan : ℝ → ℝ) (pow : ℝ → ℝ → ℝ)
    (ll z : ℝ) :
    (∀ (d : LyaData ℝ) (sep ds : ℝ),
      d.transform ⟨Real.exp, sqrt, pow, atan⟩ ll sep z ds =
        (sqrt
          ((d._cosmology.getLineOfSightComovingDistance
                (LyaData.transform_z2 ⟨Real.exp, sqrt, pow, atan⟩ ll z) -
              d._cosmology.getLineOfSightComovingDistance
                (LyaData.transform_z1 ⟨Real.exp, sqrt, pow, atan⟩ ll z)) *
            (d._cosmology.getLineOfSightComovingDistance
                (LyaData.transform_z2 ⟨Real.exp, sqrt, pow, atan⟩ ll z) -
              d._cosmology.getLineOfSightComovingDistance
                (LyaData.transform_z1 ⟨Real.exp, sqrt, pow, atan⟩ ll z)) +
            d._cosmology.getTransverseComovingScale z *
                ((sep + (ds * ds / 12) / sep) * d._arcminToRad) *
              (d._cosmology.getTransverseComovingScale z *
                ((sep + (ds * ds / 12) / sep) * d._arcminToRad))),
        |d._cosmology.getLineOfSightComovingDistance
              (LyaData.transform_z2 ⟨Real.exp, sqrt, pow, atan⟩ ll z) -
            d._cosmology.getLineOfSightComovingDistance
              (LyaData.transform_z1 ⟨Real.exp, sqrt, pow, atan⟩ ll z)| /
          sqrt
            ((d._cosmology.getLineOfSightComovingDistance
                  (LyaData.transform_z2 ⟨Real.exp, sqrt, pow, atan⟩ ll z) -
                d._cosmology.getLineOfSightComovingDistance
                  (LyaData.transform_z1 ⟨Real.exp, sqrt, pow, atan⟩ ll z)) *
              (d._cosmology.getLineOfSightComovingDistance
                  (LyaData.transform_z2 ⟨Real.exp, sqrt, pow, atan⟩ ll z) -
                d._cosmology.getLineOfSightComovingDistance
                  (LyaData.transform_z1 ⟨Real.exp, sqrt, pow, atan⟩ ll z)) +
              d._cosmology.getTransverseComovingScale z *
                  ((sep + (ds * ds / 12) / sep) * d._arcminToRad) *
                (d._cosmology.getTransverseComovingScale z *
                  ((sep + (ds * ds / 12) / sep) * d._arcminToRad))))) ∧
    LyaData.transform_z1 ⟨Real.exp, sqrt, pow, atan⟩ ll z = (z + 1) / Real.exp (ll / 2) - 1 ∧
    LyaData.transform_z2 ⟨Real.exp, sqrt, pow, atan⟩ ll z = (z + 1) * Real.exp (ll / 2) - 1 ∧
    (1 + LyaData.transform_z1 ⟨Real.exp, sqrt, pow, atan⟩ ll z) *
        (1 + LyaData.transform_z2 ⟨Real.exp, sqrt, pow, atan⟩ ll z) = (1 + z) ^ 2 ∧
    1 + LyaData.transform_z2 ⟨Real.exp, sqrt, pow, atan⟩ ll z =
      Real.exp ll * (1 + LyaData.transform_z1 ⟨Real.exp, sqrt, pow, atan⟩ ll z) ∧
    LyaData.transform_z1 ⟨Real.exp, sqrt, pow, atan⟩ 0 z = z ∧
    LyaData.transform_z2 ⟨Real.exp, sqrt, pow, atan⟩ 0 z = z ∧
    ∀ d : LyaData ℝ, LyaData.transform_drLos ⟨Real.exp, sqrt, pow, atan⟩ d 0 z = 0 ∧
      ∀ sep ds : ℝ,
        (d.transform ⟨Real.exp, sqrt, pow, atan⟩ 0 sep z ds).1 =
          sqrt (d._cosmology.getTransverseComovingScale z *
              ((sep + (ds * ds / 12) / sep) * d._arcminToRad) *
            (d._cosmology.getTransverseComovingScale z *
              ((sep + (ds * ds / 12) / sep) * d._arcminToRad))) ∧
        ((d.transform ⟨Real.exp, sqrt, pow, atan⟩ 0 sep z ds).1 ≠ 0 →
          (d.transform ⟨Real.exp, sqrt, pow, atan⟩ 0 sep z ds).2 = 0) := by
  have hpos : Real.exp (0.5 * ll) ≠ 0 := (Real.exp_pos _).ne'
  have hhalf : (0.5 : ℝ) * ll = ll / 2 := by ring
  have hsq : Real.exp ll = Real.exp (0.5 * ll) * Real.exp (0.5 * ll) := by
    rw [← Real.exp_add]; congr 1; ring
  have hz1 : LyaData.transform_z1 ⟨Real.exp, sqrt, pow, atan⟩ 0 z = z := by
    simp [LyaData.transform_z1]
  have hz2 : LyaData.transform_z2 ⟨Real.exp, sqrt, pow, atan⟩ 0 z = z := by
    simp [LyaData.transform_z2]
  have hdr : ∀ d : LyaData ℝ, LyaData.transform_drLos ⟨Real.exp, sqrt, pow, atan⟩ d 0 z = 0 := by
    intro d
    rw [LyaData.transform_drLos, hz1, hz2, sub_self]
  refine ⟨fun d sep ds => rfl, ?_, ?_, ?_, ?_, hz1, hz2,
    fun d => ⟨hdr d, fun sep ds => ⟨?_, fun _ => ?_⟩⟩⟩
  · simp only [LyaData.transform_z1, hhalf]
  · simp only [LyaData.transform_z2, hhalf]
  · simp only [LyaData.transform_z1, LyaData.transform_z2]
    field_simp
    ring
  · simp only [LyaData.transform_z1, LyaData.transform_z2]
    rw [hsq]
    field_simp
    ring
  · rw [LyaData.transform_eq_locals, hdr d]
    simp [LyaData.transform_swgt]
  · rw [LyaData.transform_eq_locals, hdr d]
    simp

/-- For `ll = 0`, `sep = 5`, `z = 2`, `ds = 10` and the transverse scale `1` the radius is not
zero and the cosine is `0`. -/
theorem LyaData.transform_redshifts_bracket_witness :
    ((exampleEmpty ⟨Real.exp, Real.sqrt, Real.rpow, Real.arctan⟩
      ⟨fun z => z, fun _ => 1⟩).transform ⟨Real.exp, Real.sqrt, Real.rpow, Real.arctan⟩
        0 5 2 10).1 ≠ 0 ∧
    ((exampleEmpty ⟨Real.exp, Real.sqrt, Real.rpow, Real.arctan⟩
      ⟨fun z => z, fun _ => 1⟩).transform ⟨Real.exp, Real.sqrt, Real.rpow, Real.arctan⟩
        0 5 2 10).2 = 0 := by
  have hr : ((exampleEmpty ⟨Real.exp, Real.sqrt, Real.rpow, Real.arctan⟩
      ⟨fun z => z, fun _ => 1⟩).transform ⟨Real.exp, Real.sqrt, Real.rpow, Real.arctan⟩
        0 5 2 10).1 ≠ 0 := by
    simp only [LyaData.transform, exampleEmpty, LyaData.new]
    rw [Real.sqrt_ne_zero']
    apply add_pos_of_nonneg_of_pos (mul_self_nonneg _)
    apply mul_self_pos.2
    rw [Real.arctan_one]
    have := Real.pi_pos
    positivity
  exact ⟨hr, (((LyaData.transform_redshifts_bracket Real.sqrt Real.arctan Real.rpow 0
    2).2.2.2.2.2.2.2 _).2 5 10).2 hr⟩

/-! ### The model at the reference redshift -/

omit [FloorRing K] in
theorem LyaBaoModel.evaluate_cons (M : CMath K) (m : LyaBaoModel K) (r mu z alpha : K)
    (rest : List K) :
    (m.evaluate M r mu z (alpha :: rest)).1 =
      vget rest 0 0 * vget rest 0 0 * M.pow ((1 + z) / (1 + m._zref)) alpha *
        (vget rest 2 0 * (m._fid.xi (vget rest 1 0) (r * vget rest 3 0) mu -
            m._nw.xi (vget rest 1 0) (r * vget rest 3 0) mu) +
          m._nw.xi (vget rest 1 0) (r * vget rest 3 0) mu) :=
  rfl

/-- C28: with `std::pow` the real power and `zref ≠ -1`, `evaluate` at `z = zref` returns
`bias² · (ampl·(fid - nw) + nw)`, and two parameter vectors that differ only in `p[0]` give the
same value. -/
theorem LyaBaoModel.evaluate_at_zref (exp sqrt atan : ℝ → ℝ) (m : LyaBaoModel ℝ)
    (hz : m._zref ≠ -1) (r mu alpha alpha2 bias beta ampl scale : ℝ) :
    (m.evaluate ⟨exp, sqrt, Real.rpow, atan⟩ r mu m._zref [alpha, bias, beta, ampl, scale]).1 =
      bias ^ 2 * (ampl * (m._fid.xi beta (r * scale) mu - m._nw.xi beta (r * scale) mu) +
        m._nw.xi beta (r * scale) mu) ∧
    ∀ rest : List ℝ,
      (m.evaluate ⟨exp, sqrt, Real.rpow, atan⟩ r mu m._zref (alpha :: rest)).1 =
        (m.evaluate ⟨exp, sqrt, Real.rpow, atan⟩ r mu m._zref (alpha2 :: rest)).1 := by
  have hne : 1 + m._zref ≠ 0 := by
    intro h
    apply hz
    linarith
  have hp : ∀ a : ℝ, Real.rpow ((1 + m._zref) / (1 + m._zref)) a = 1 := by
    intro a
    rw [div_self hne]
    exact Real.one_rpow a
  constructor
  · rw [LyaBaoModel.evaluate_fst]
    simp only [hp]
    ring
  · intro rest
    rw [LyaBaoModel.evaluate_cons, LyaBaoModel.evaluate_cons]
    simp only [hp]

/-- At the reference redshift `9/4` the vectors `(4, 1/5, 4/5, 1, 1)` and `(7, 1/5, 4/5, 1, 1)`
give the same value. -/
theorem LyaBaoModel.evaluate_at_zref_witness :
    (9 / 4 : ℝ) ≠ -1 ∧
    ((⟨9 / 4, ⟨fun b r mu => b + r * mu, 0⟩, ⟨fun b r mu => b * r + mu, 0⟩⟩ :
        LyaBaoModel ℝ).evaluate ⟨Real.exp, Real.sqrt, Real.rpow, Real.arctan⟩
        100 (1 / 2) (9 / 4) [4, 1 / 5, 4 / 5, 1, 1]).1 =
      ((⟨9 / 4, ⟨fun b r mu => b + r * mu, 0⟩, ⟨fun b r mu => b * r + mu, 0⟩⟩ :
        LyaBaoModel ℝ).evaluate ⟨Real.exp, Real.sqrt, Real.rpow, Real.arctan⟩
        100 (1 / 2) (9 / 4) [7, 1 / 5, 4 / 5, 1, 1]).1 :=
  ⟨by norm_num,
    (LyaBaoModel.evaluate_at_zref Real.exp Real.sqrt Real.arctan
      ⟨9 / 4, ⟨fun b r mu => b + r * mu, 0⟩, ⟨fun b r mu => b * r + mu, 0⟩⟩ (by norm_num)
      100 (1 / 2) 4 7 (1 / 5) (4 / 5) 1 1).2 [1 / 5, 4 / 5, 1, 1]⟩

/-! ### The invariants of the dataset -/

omit [FloorRing K] in
theorem list_sum_eq_zero_iff (l : List K) (h : ∀ x ∈ l, 0 ≤ x) :
    l.sum = 0 ↔ ∀ x ∈ l, x = 0 := by
  induction l with
  | nil => simp
  | cons a l ih =>
    have ha : 0 ≤ a := h a (List.mem_cons_self _ _)
    have hl : ∀ x ∈ l, 0 ≤ x := fun x hx => h x (List.mem_cons_of_mem _ hx)
    have hs : 0 ≤ l.sum := List.sum_nonneg hl
    rw [List.sum_cons]
    constructor
    · intro h0
      have ha0 : a = 0 := by linarith
      have hl0 : l.sum = 0 := by linarith
      intro x hx
      rcases List.mem_cons.1 hx with hx | hx
      · rw [hx]; exact ha0
      · exact (ih hl).1 hl0 x hx
    · intro h0
      rw [h0 a (List.mem_cons_self _ _),
        (ih hl).2 (fun x hx => h0 x (List.mem_cons_of_mem _ hx)), add_zero]

/-- C26: on a dataset the program can build in which every active bin has a positive variance,
`operator()(p)` returns a value `≥ 0`, which is `0` exactly when `evaluate` returns the observed
value in every active bin; it is `0` when there is no active bin. -/
theorem LyaBaoLikelihood.call_nonneg (M : CMath K) (L : LyaBaoLikelihood K)
    (hd : LyaData.Reachable M L._data) (params : List K)
    (hvar : ∀ k : Nat, (k : Int) < L._data.getNData →
      0 < L._data.getVariance (L._data.getIndex k)) :
    ∃ (z : Nat → K) (v : K),
      (∀ k : Nat, (k : Int) < L._data.getNData →
        L._data.getRedshift (L._data.getIndex k) = some (z k)) ∧
      (L.call M params).map Prod.fst = some v ∧ 0 ≤ v ∧
      (v = 0 ↔ ∀ k : Nat, (k : Int) < L._data.getNData →
        (L._model.evaluate M (L._data.getRadius (L._data.getIndex k))
          (L._data.getCosAngle (L._data.getIndex k)) (z k) params).1 =
            L._data.getData (L._data.getIndex k)) ∧
      (L._data.getNData = 0 → v = 0) := by
  have hinv := LyaData.Reachable.inv M L._data hd
  obtain ⟨m2, -, -, -, hc⟩ := LyaBaoLikelihood.call_eq M L hinv params L._model rfl rfl rfl
  have hlt : ∀ k : Nat, k ∈ List.range L._data.getNData.toNat ↔ (k : Int) < L._data.getNData := by
    intro k
    simp [LyaData.getNData]
  have hnn : ∀ x ∈ (List.range L._data.getNData.toNat).map (fun k : Nat =>
      (L._data.getData (L._data.getIndex k) -
        (L._model.evaluate M (L._data.getRadius (L._data.getIndex k))
          (L._data.getCosAngle (L._data.getIndex k))
          ((L._data.getRedshift (L._data.getIndex k)).getD 0) params).1) ^ 2 /
        L._data.getVariance (L._data.getIndex k)), 0 ≤ x := by
    intro x hx
    obtain ⟨k, hk, rfl⟩ := List.mem_map.1 hx
    exact div_nonneg (sq_nonneg _) (hvar k ((hlt k).1 hk)).le
  refine ⟨fun k => (L._data.getRedshift (L._data.getIndex k)).getD 0, _, ?_, by rw [hc]; rfl,
    mul_nonneg (by norm_num) (List.sum_nonneg hnn), ?_, ?_⟩
  · intro k hk
    have hk2 : k < L._data._index.length := by simpa [LyaData.getNData] using hk
    obtain ⟨z, hz⟩ := LyaData.getRedshift_isSome L._data hinv k hk2
    simp [hz]
  · rw [mul_eq_zero, list_sum_eq_zero_iff _ hnn]
    constructor
    · rintro (h | h)
      · norm_num at h
      · intro k hk
        have h0 := h _ (List.mem_map.2 ⟨k, (hlt k).2 hk, rfl⟩)
        rw [div_eq_zero_iff] at h0
        rcases h0 with h0 | h0
        · have h1 := pow_eq_zero_iff (two_ne_zero) |>.1 h0
          linarith
        · exact absurd h0 (ne_of_gt (hvar k hk))
    · intro h
      right
      intro x hx
      obtain ⟨k, hk, rfl⟩ := List.mem_map.1 hx
      rw [h k ((hlt k).1 hk), sub_self]
      simp
  · intro h0
    rw [h0]
    simp

/-- The scenario dataset has the variance `4` in its one active bin, and the likelihood of any
model on it is `≥ 0`. -/
theorem LyaBaoLikelihood.call_nonneg_witness :
    LyaData.Reachable ⟨Real.exp, Real.sqrt, Real.rpow, Real.arctan⟩
      (LyaBaoLikelihood.new
        (exampleComplete ⟨Real.exp, Real.sqrt, Real.rpow, Real.arctan⟩ ⟨fun z => z, fun _ => 1⟩)
        ⟨9 / 4, ⟨fun b r mu => b + r * mu, 0⟩, ⟨fun b r mu => b * r + mu, 0⟩⟩)._data ∧
    (∀ k : Nat,
      (k : Int) < (exampleComplete ⟨Real.exp, Real.sqrt, Real.rpow, Real.arctan⟩
        ⟨fun z => z, fun _ => 1⟩).getNData →
      0 < (exampleComplete ⟨Real.exp, Real.sqrt, Real.rpow, Real.arctan⟩
        ⟨fun z => z, fun _ => 1⟩).getVariance
          ((exampleComplete ⟨Real.exp, Real.sqrt, Real.rpow, Real.arctan⟩
            ⟨fun z => z, fun _ => 1⟩).getIndex k)) ∧
    ∃ v : ℝ,
      ((LyaBaoLikelihood.new
        (exampleComplete ⟨Real.exp, Real.sqrt, Real.rpow, Real.arctan⟩ ⟨fun z => z, fun _ => 1⟩)
        ⟨9 / 4, ⟨fun b r mu => b + r * mu, 0⟩, ⟨fun b r mu => b * r + mu, 0⟩⟩).call
          ⟨Real.exp, Real.sqrt, Real.rpow, Real.arctan⟩ [4, 0.2, 0.8, 1, 1]).map Prod.fst =
        some v ∧ 0 ≤ v := by
  have hvar : ∀ k : Nat,
      (k : Int) < (exampleComplete ⟨Real.exp, Real.sqrt, Real.rpow, Real.arctan⟩
        ⟨fun z => z, fun _ => 1⟩).getNData →
      0 < (exampleComplete ⟨Real.exp, Real.sqrt, Real.rpow, Real.arctan⟩
        ⟨fun z => z, fun _ => 1⟩).getVariance
          ((exampleComplete ⟨Real.exp, Real.sqrt, Real.rpow, Real.arctan⟩
            ⟨fun z => z, fun _ => 1⟩).getIndex k) := by
    intro k hk
    obtain ⟨h1, h2, -, h4⟩ := exampleComplete_values
      (⟨Real.exp, Real.sqrt, Real.rpow, Real.arctan⟩ : CMath ℝ) ⟨fun z => z, fun _ => 1⟩
    rw [h1] at hk
    have hk0 : k = 0 := by omega
    subst hk0
    rw [h2, h4]
    norm_num
  obtain ⟨z, v, -, hv, hv0, -, -⟩ := LyaBaoLikelihood.call_nonneg
    ⟨Real.exp, Real.sqrt, Real.rpow, Real.arctan⟩
    (LyaBaoLikelihood.new
      (exampleComplete ⟨Real.exp, Real.sqrt, Real.rpow, Real.arctan⟩ ⟨fun z => z, fun _ => 1⟩)
      ⟨9 / 4, ⟨fun b r mu => b + r * mu, 0⟩, ⟨fun b r mu => b * r + mu, 0⟩⟩)
    (exampleComplete_reachable _ _) [4, 0.2, 0.8, 1, 1] hvar
  exact ⟨exampleComplete_reachable _ _, hvar, v, hv, hv0⟩

/-! ### Machine arithmetic -/

theorem int32_of_fits (x : Int) (h0 : -2147483648 ≤ x) (h1 : x < 2147483648) : int32 x = x := by
  unfold int32
  omega

theorem roundHalfEven_intCast (m : Int) : roundHalfEven (m : ℚ) = m := by
  simp [roundHalfEven]

theorem Double.round_dyadic (m e : Int) (hm : |m| < 9007199254740992) (he : -1074 ≤ e)
    (hfin : |(m : ℚ) * 2 ^ e| < Double.overflow) :
    Double.round ((m : ℚ) * 2 ^ e) = Double.finite ((m : ℚ) * 2 ^ e) := by
  have key : (roundHalfEven ((m : ℚ) * 2 ^ e / 2 ^ ulpExponent ((m : ℚ) * 2 ^ e)) : ℚ) *
      2 ^ ulpExponent ((m : ℚ) * 2 ^ e) = (m : ℚ) * 2 ^ e := by
    rcases eq_or_ne m 0 with h0 | h0
    · subst h0
      simp [roundHalfEven]
    · have hxpos : 0 < |(m : ℚ) * 2 ^ e| := by
        rw [abs_pos]
        exact mul_ne_zero (by exact_mod_cast h0) (by positivity)
      have hlt : |(m : ℚ) * 2 ^ e| < (2 : ℚ) ^ (e + 53) := by
        rw [abs_mul, abs_of_pos (by positivity : (0 : ℚ) < 2 ^ e), zpow_add₀ (by norm_num),
          mul_comm]
        apply mul_lt_mul_of_pos_left _ (by positivity)
        have : ((|m| : Int) : ℚ) < 9007199254740992 := by exact_mod_cast hm
        rw [Int.cast_abs] at this
        calc |(m : ℚ)| < 9007199254740992 := this
          _ = 2 ^ (53 : Int) := by norm_num
      have hlog : Int.log 2 |(m : ℚ) * 2 ^ e| < e + 53 :=
        (Int.lt_zpow_iff_log_lt (by norm_num) hxpos).1 (by exact_mod_cast hlt)
      have hu : ulpExponent ((m : ℚ) * 2 ^ e) ≤ e := by
        unfold ulpExponent
        omega
      obtain ⟨k, hk⟩ : ∃ k : Nat, e = ulpExponent ((m : ℚ) * 2 ^ e) + k :=
        ⟨(e - ulpExponent ((m : ℚ) * 2 ^ e)).toNat, by omega⟩
      generalize ulpExponent ((m : ℚ) * 2 ^ e) = u at hk ⊢
      have hdiv : (m : ℚ) * 2 ^ e / 2 ^ u = ((m * 2 ^ k : Int) : ℚ) := by
        rw [hk, zpow_add₀ (by norm_num), zpow_natCast]
        push_cast
        field_simp
        ring
      rw [hdiv, roundHalfEven_intCast, hk, zpow_add₀ (by norm_num), zpow_natCast]
      push_cast
      ring
  unfold Double.round
  simp only [key]
  rw [if_pos hfin]



theorem oversampleBinning_machine_exact (b : Binning ℚ) (factor : Int)
    (h0 : -2147483648 ≤ b._nBins * factor) (h1 : b._nBins * factor < 2147483648)
    (hq : Double.round (b._binSize / (factor : ℚ)) = Double.finite (b._binSize / (factor : ℚ))) :
    Machine.oversampleBinning b factor = oversampleBinning b factor := by
  unfold Machine.oversampleBinning oversampleBinning Binning.getNBins Binning.getBinSize
  rw [hq]
  dsimp only
  rw [int32_of_fits _ h0 h1]

/-- C19, as amended: in machine arithmetic, for a constructed `Binning` and `factor > 0` such that
`nBins·factor` is less than `2^31` and `binSize/factor` is a finite number of type `double` (so
that computing it rounds nothing), `oversampleBinning` succeeds and returns a binning with
`nBins·factor` bins, the same `lowEdge` and `binSize/factor`, whose upper edge `lowEdge +
nBins·binSize` is the one of the original. For every `factor > 0` the binning is the one
constructed from the product reduced to 32 bits, `lowEdge` and the rounded quotient; for `factor ≤
0` the assertion fails. -/
theorem oversampleBinning_machine_spec (nBins : Int) (lowEdge binSize : ℚ) (b : Binning ℚ)
    (hb : Binning.new nBins lowEdge binSize = some b) (factor : Int) :
    (0 < factor → nBins * factor < 2147483648 →
      Double.round (binSize / (factor : ℚ)) = Double.finite (binSize / (factor : ℚ)) →
      ∃ o : Binning ℚ, Machine.oversampleBinning b factor = some o ∧
        o.getNBins = nBins * factor ∧ o.getLowEdge = lowEdge ∧
        o.getBinSize = binSize / (factor : ℚ) ∧
        o.getLowEdge + (o.getNBins : ℚ) * o.getBinSize = lowEdge + (nBins : ℚ) * binSize) ∧
    (0 < factor → ∀ q : ℚ, Double.round (binSize / (factor : ℚ)) = Double.finite q →
      Machine.oversampleBinning b factor = Binning.new (int32 (nBins * factor)) lowEdge q) ∧
    (factor ≤ 0 → Machine.oversampleBinning b factor = none) := by
  have hex := oversampleBinning_exact_spec nBins lowEdge binSize b hb factor
  obtain ⟨hn, hs, rfl⟩ := Binning.new_eq_some hb
  refine ⟨?_, ?_, ?_⟩
  · intro hf hfit hq
    rw [oversampleBinning_machine_exact _ factor
      (le_trans (by norm_num) (mul_pos hn hf).le) hfit hq]
    exact hex.1 hf
  · intro hf q hq
    unfold Machine.oversampleBinning
    rw [if_pos hf]
    simp only [Binning.getBinSize, Binning.getNBins, Binning.getLowEdge]
    rw [hq]
  · intro hf
    unfold Machine.oversampleBinning
    rw [if_neg (not_lt.2 hf)]

theorem Double.round_examples :
    Double.round (1 / 2) = Double.finite (1 / 2) ∧
    Double.round 1 = Double.finite 1 ∧
    Double.round (3 / 2) = Double.finite (3 / 2) ∧
    Double.round 2 = Double.finite 2 ∧
    Double.round 3 = Double.finite 3 ∧
    Double.round 10000000000000000 = Double.finite 10000000000000000 ∧
    Double.round 10000000000000002 = Double.finite 10000000000000002 ∧
    Double.round (9007199254740991 / 9007199254740992) =
      Double.finite (9007199254740991 / 9007199254740992) ∧
    Double.round (9007199254740991 / 18014398509481984) =
      Double.finite (9007199254740991 / 18014398509481984) := by
  have h1 := Double.round_dyadic 1 (-1) (by norm_num) (by norm_num)
    (by norm_num [abs_lt, Double.overflow])
  have h2 := Double.round_dyadic 1 0 (by norm_num) (by norm_num)
    (by norm_num [abs_lt, Double.overflow])
  have h3 := Double.round_dyadic 3 (-1) (by norm_num) (by norm_num)
    (by norm_num [abs_lt, Double.overflow])
  have h4 := Double.round_dyadic 2 0 (by norm_num) (by norm_num)
    (by norm_num [abs_lt, Double.overflow])
  have h5 := Double.round_dyadic 3 0 (by norm_num) (by norm_num)
    (by norm_num [abs_lt, Double.overflow])
  have h6 := Double.round_dyadic 152587890625 16 (by norm_num) (by norm_num)
    (by norm_num [abs_lt, Double.overflow])
  have h7 := Double.round_dyadic 5000000000000001 1 (by norm_num) (by norm_num)
    (by norm_num [abs_lt, Double.overflow])
  have h8 := Double.round_dyadic 9007199254740991 (-53) (by norm_num) (by norm_num)
    (by norm_num [abs_lt, Double.overflow])
  have h9 := Double.round_dyadic 9007199254740991 (-54) (by norm_num) (by norm_num)
    (by norm_num [abs_lt, Double.overflow])
  norm_num at h1 h2 h3 h4 h5 h6 h7 h8 h9
  exact ⟨h1, h2, h3, h4, h5, h6, h7, h8, h9⟩

/-- C19 as stated fails in machine arithmetic. The binning `(65536, 0, 1)` and the factor `65536`:
the product of the two `int` is `2^32`, which is reduced to `0`, and the assertion `nBins > 0` of
the constructor fails. -/
theorem oversampleBinning_machine_spec_counterexample :
    Binning.new 65536 0 1 = some (⟨65536, 0, 1⟩ : Binning ℚ) ∧ (0 : Int) < 65536 ∧
    int32 (65536 * 65536) = 0 ∧
    Machine.oversampleBinning (⟨65536, 0, 1⟩ : Binning ℚ) 65536 = none := by
  have hi : int32 (65536 * 65536) = 0 := by decide
  refine ⟨by simp [Binning.new], by decide, hi, ?_⟩
  unfold Machine.oversampleBinning
  rw [if_pos (by decide)]
  cases Double.round ((⟨65536, 0, 1⟩ : Binning ℚ).getBinSize / ((65536 : Int) : ℚ)) with
  | nonfinite => rfl
  | finite q =>
    simp only [Binning.getNBins, hi, Binning.new]
    rw [if_neg (by simp)]

/-- The binning `(2, 0, 1)` oversampled by `2` is `(4, 0, 1/2)`. -/
theorem oversampleBinning_machine_spec_witness :
    Binning.new 2 0 1 = some (⟨2, 0, 1⟩ : Binning ℚ) ∧ (0 : Int) < 2 ∧
    (2 : Int) * 2 < 2147483648 ∧
    Double.round (1 / ((2 : Int) : ℚ)) = Double.finite (1 / ((2 : Int) : ℚ)) ∧
    ∃ o : Binning ℚ, Machine.oversampleBinning (⟨2, 0, 1⟩ : Binning ℚ) 2 = some o ∧
      o.getNBins = 2 * 2 ∧ o.getLowEdge = 0 ∧ o.getBinSize = 1 / ((2 : Int) : ℚ) ∧
      o.getLowEdge + (o.getNBins : ℚ) * o.getBinSize = 0 + ((2 : Int) : ℚ) * 1 := by
  have hb : Binning.new 2 0 1 = some (⟨2, 0, 1⟩ : Binning ℚ) := by simp [Binning.new]
  obtain ⟨h12, -, -, -, -, -, -, -, -⟩ := Double.round_examples
  have hw : Double.round (1 / ((2 : Int) : ℚ)) = Double.finite (1 / ((2 : Int) : ℚ)) := by
    norm_num [h12]
  exact ⟨hb, by decide, by decide, hw,
    (oversampleBinning_machine_spec 2 0 1 ⟨2, 0, 1⟩ hb 2).1 (by decide) (by decide) hw⟩

theorem Machine.addData_index_of_fits (nll nsep nz a b c : Int) (ha0 : 0 ≤ a) (ha : a < nll)
    (hb0 : 0 ≤ b) (hb : b < nsep) (hc0 : 0 ≤ c) (hc : c < nz)
    (hfit : nll * nsep * nz < 2147483648) :
    int32 (int32 (int32 (int32 (a * nsep) + b) * nz) + c) = (a * nsep + b) * nz + c := by
  obtain ⟨-, h2⟩ := flat_index_bounds nll nsep nz a b c ha0 ha hb0 hb hc0 hc
  have hnz : 1 ≤ nz := by omega
  have hnsep : 0 < nsep := by omega
  have h3 : 0 ≤ a * nsep := mul_nonneg ha0 hnsep.le
  have h4 : a * nsep + b ≤ (a * nsep + b) * nz := by nlinarith
  rw [int32_of_fits (a * nsep) (by omega) (by omega),
    int32_of_fits (a * nsep + b) (by omega) (by omega),
    int32_of_fits ((a * nsep + b) * nz) (by omega) (by omega),
    int32_of_fits ((a * nsep + b) * nz + c) (by omega) (by omega)]

/-- C13, as amended: with the arithmetic of `int`, on a dataset the program can build from
constructed binnings whose counts have a product `nll·nsep·nz` less than `2^31`: the constructor
computes the sizes without overflow, `getSize()` is `nll·nsep·nz`, and the `index` that `addData`
computes for the bin triples with `0 ≤ a < nll`, `0 ≤ b < nsep`, `0 ≤ c < nz` is `(a·nsep + b)·nz +
c`, lies in `[0, getSize())`, is different for different triples, and reaches every index of `[0,
getSize())`. -/
theorem LyaData.machine_flat_index_bijection (M : CMath K) (d : LyaData K)
    (hd : LyaData.Reachable M d) (hll : 0 < d._logLambdaBinning.getNBins)
    (hsep : 0 < d._separationBinning.getNBins) (hz : 0 < d._redshiftBinning.getNBins)
    (hfit : d._logLambdaBinning.getNBins * d._separationBinning.getNBins *
      d._redshiftBinning.getNBins < 2147483648) :
    Machine.LyaData.new M d._logLambdaBinning d._separationBinning d._redshiftBinning
        d._cosmology =
      some (LyaData.new M d._logLambdaBinning d._separationBinning d._redshiftBinning
        d._cosmology) ∧
    d.getSize = d._logLambdaBinning.getNBins * d._separationBinning.getNBins *
      d._redshiftBinning.getNBins ∧
    (∀ a b c : Int, 0 ≤ a → a < d._logLambdaBinning.getNBins → 0 ≤ b →
      b < d._separationBinning.getNBins → 0 ≤ c → c < d._redshiftBinning.getNBins →
      Machine.LyaData.addData_index d a b c =
        (a * d._separationBinning.getNBins + b) * d._redshiftBinning.getNBins + c ∧
      0 ≤ Machine.LyaData.addData_index d a b c ∧
      Machine.LyaData.addData_index d a b c < d.getSize) ∧
    (∀ a b c a2 b2 c2 : Int, 0 ≤ a → a < d._logLambdaBinning.getNBins → 0 ≤ b →
      b < d._separationBinning.getNBins → 0 ≤ c → c < d._redshiftBinning.getNBins →
      0 ≤ a2 → a2 < d._logLambdaBinning.getNBins → 0 ≤ b2 →
      b2 < d._separationBinning.getNBins → 0 ≤ c2 → c2 < d._redshiftBinning.getNBins →
      Machine.LyaData.addData_index d a b c = Machine.LyaData.addData_index d a2 b2 c2 →
      a = a2 ∧ b = b2 ∧ c = c2) ∧
    (∀ i : Int, 0 ≤ i → i < d.getSize →
      ∃ a b c : Int, 0 ≤ a ∧ a < d._logLambdaBinning.getNBins ∧ 0 ≤ b ∧
        b < d._separationBinning.getNBins ∧ 0 ≤ c ∧ c < d._redshiftBinning.getNBins ∧
        Machine.LyaData.addData_index d a b c = i) := by
  obtain ⟨hnsep, hnz, hsize, hrange, hinj, hsurj⟩ :=
    LyaData.exact_flat_index M d hd hll hsep hz
  have hidx : ∀ a b c : Int, 0 ≤ a → a < d._logLambdaBinning.getNBins → 0 ≤ b →
      b < d._separationBinning.getNBins → 0 ≤ c → c < d._redshiftBinning.getNBins →
      Machine.LyaData.addData_index d a b c = (a * d._nsep + b) * d._nz + c := by
    intro a b c ha0 ha hb0 hb hc0 hc
    unfold Machine.LyaData.addData_index
    rw [hnsep, hnz]
    exact Machine.addData_index_of_fits _ _ _ a b c ha0 ha hb0 hb hc0 hc hfit
  refine ⟨?_, hsize, ?_, ?_, ?_⟩
  · have h1 : 0 < d._logLambdaBinning.getNBins * d._separationBinning.getNBins :=
      mul_pos hll hsep
    have h2 : d._logLambdaBinning.getNBins * d._separationBinning.getNBins ≤
        d._logLambdaBinning.getNBins * d._separationBinning.getNBins *
          d._redshiftBinning.getNBins := by nlinarith
    have h3 : 0 < d._logLambdaBinning.getNBins * d._separationBinning.getNBins *
        d._redshiftBinning.getNBins := mul_pos h1 hz
    unfold Machine.LyaData.new LyaData.new
    simp only
    rw [int32_of_fits (d._logLambdaBinning.getNBins * d._separationBinning.getNBins)
      (by omega) (by omega), int32_of_fits _ (by omega) hfit, if_neg (by omega)]
  · intro a b c ha0 ha hb0 hb hc0 hc
    rw [hidx a b c ha0 ha hb0 hb hc0 hc]
    refine ⟨by rw [hnsep, hnz], ?_⟩
    exact hrange a b c ha0 ha hb0 hb hc0 hc
  · intro a b c a2 b2 c2 ha0 ha hb0 hb hc0 hc ha20 ha2 hb20 hb2 hc20 hc2 h
    rw [hidx a b c ha0 ha hb0 hb hc0 hc, hidx a2 b2 c2 ha20 ha2 hb20 hb2 hc20 hc2] at h
    exact hinj a b c a2 b2 c2 ha0 ha hb0 hb hc0 hc ha20 ha2 hb20 hb2 hc20 hc2 h
  · intro i hi0 hi
    obtain ⟨a, b, c, ha0, ha, hb0, hb, hc0, hc, h⟩ := hsurj i hi0 hi
    exact ⟨a, b, c, ha0, ha, hb0, hb, hc0, hc, by rw [hidx a b c ha0 ha hb0 hb hc0 hc, h]⟩

/-- C13 as stated fails with the arithmetic of `int`. The binnings with `65537`, `65537` and `1`
bins: the constructor computes `131073` for the size, which is not `65537·65537·1`, and `addData`
computes the index `0` both for the bins `(65535, 1, 0)` and for the bins `(0, 0, 0)`. -/
theorem LyaData.machine_flat_index_counterexample :
    Binning.new 65537 0 1 = some (⟨65537, 0, 1⟩ : Binning ℝ) ∧
    Binning.new 1 0 1 = some (⟨1, 0, 1⟩ : Binning ℝ) ∧
    ∃ d : LyaData ℝ,
      Machine.LyaData.new ⟨Real.exp, Real.sqrt, Real.rpow, Real.arctan⟩ ⟨65537, 0, 1⟩
        ⟨65537, 0, 1⟩ ⟨1, 0, 1⟩ ⟨fun z => z, fun _ => 1⟩ = some d ∧
      d.getSize = 131073 ∧ d.getSize ≠ 65537 * 65537 * 1 ∧
      Machine.LyaData.addData_index d 65535 1 0 = 0 ∧
      Machine.LyaData.addData_index d 0 0 0 = 0 := by
  have hn : int32 (int32 (65537 * 65537) * 1) = 131073 := by decide
  refine ⟨by simp [Binning.new], by simp [Binning.new], ?_⟩
  unfold Machine.LyaData.new
  simp only [Binning.getNBins, hn]
  rw [if_neg (by decide)]
  have hsize : (((List.replicate (131073 : Int).toNat (0 : ℝ)).length : Nat) : Int) = 131073 := by
    rw [List.length_replicate]
    decide
  refine ⟨_, rfl, ?_, ?_, ?_, ?_⟩
  · simp only [LyaData.getSize]
    exact hsize
  · simp only [LyaData.getSize]
    rw [hsize]
    decide
  · simp only [Machine.LyaData.addData_index]
    decide
  · simp only [Machine.LyaData.addData_index]
    decide

/-- The scenario dataset has `2·2·2 = 8` bins, and `addData` computes the index `7` for the
bins `(1, 1, 1)`. -/
theorem LyaData.machine_flat_index_bijection_witness :
    LyaData.Reachable ⟨Real.exp, Real.sqrt, Real.rpow, Real.arctan⟩
      (exampleEmpty ⟨Real.exp, Real.sqrt, Real.rpow, Real.arctan⟩ ⟨fun z => z, fun _ => 1⟩) ∧
    (0 : Int) < (exampleBinning : Binning ℝ).getNBins ∧
    (exampleBinning : Binning ℝ).getNBins * (exampleBinning : Binning ℝ).getNBins *
      (exampleBinning : Binning ℝ).getNBins < 2147483648 ∧
    (exampleEmpty ⟨Real.exp, Real.sqrt, Real.rpow, Real.arctan⟩
        ⟨fun z => z, fun _ => 1⟩).getSize =
      (exampleBinning : Binning ℝ).getNBins * (exampleBinning : Binning ℝ).getNBins *
        (exampleBinning : Binning ℝ).getNBins ∧
    Machine.LyaData.addData_index (exampleEmpty ⟨Real.exp, Real.sqrt, Real.rpow, Real.arctan⟩
        ⟨fun z => z, fun _ => 1⟩) 1 1 1 =
      (1 * (exampleBinning : Binning ℝ).getNBins + 1) * (exampleBinning : Binning ℝ).getNBins +
        1 := by
  have h := LyaData.machine_flat_index_bijection ⟨Real.exp, Real.sqrt, Real.rpow, Real.arctan⟩
    (exampleEmpty ⟨Real.exp, Real.sqrt, Real.rpow, Real.arctan⟩ ⟨fun z => z, fun _ => 1⟩)
    (exampleEmpty_reachable _ _) (by decide) (by decide) (by decide) (by decide)
  exact ⟨exampleEmpty_reachable _ _, by decide, by decide, h.2.1,
    (h.2.2.1 1 1 1 (by decide) (by decide) (by decide) (by decide) (by decide) (by decide)).1⟩

end Proofs

end BaoFit
